import Mathlib

/-!
Verification development for the pytmx-ng tile/GID decoding and geometry core.

Python source is shallowly embedded: Python `str` values that undergo
character-level processing are `List Char`; `bytes` are `List Nat`;
fallible code (raising exceptions) returns `Option`; Python's unbounded
integers are `Int`/`Nat`; float arithmetic in the geometry code is
modelled as exact rational arithmetic over `ℚ`.  External libraries the
code calls (base64, zlib, gzip, zstd) are abstract function parameters
collected in an `Codecs` record, since they are not part of this repository.
-/

/-! ## Python string primitives -/

/-- Characters treated as whitespace by Python `str.strip()` (the subset
relevant here; only its disjointness from `,`, digits and signs matters). -/
def pyws (c : Char) : Bool :=
  c = ' ' || c = '\t' || c = '\n' || c = '\r'

/-- Left strip: Python `str.lstrip()`. -/
def stripL (l : List Char) : List Char :=
  l.dropWhile pyws

/-- Right strip: Python `str.rstrip()`. -/
def stripR (l : List Char) : List Char :=
  (l.reverse.dropWhile pyws).reverse

/-- Python `str.strip()`. -/
def pystrip (l : List Char) : List Char :=
  stripR (stripL l)

/-- Python `str.split(sep)` with a one-character separator: splitting the
empty string yields `[""]`, and separators at the ends yield empty pieces. -/
def splitCh (c : Char) : List Char → List (List Char)
  | [] => [[]]
  | a :: as =>
    if a = c then [] :: splitCh c as
    else
      match splitCh c as with
      | [] => [[a]]
      | p :: ps => (a :: p) :: ps

/-- Numeric value of a decimal digit character. -/
def digitVal (c : Char) : Nat := c.toNat - 48

/-- Value of a list of decimal digit characters (most significant first). -/
def digitsToNat (l : List Char) : Nat :=
  l.foldl (fun acc c => acc * 10 + digitVal c) 0

/-- Parse a nonempty all-digit string as a natural number, else fail. -/
def natCore (l : List Char) : Option Nat :=
  if l ≠ [] ∧ l.all Char.isDigit then some (digitsToNat l) else none

/-- Parse an optional sign followed by digits (input assumed stripped). -/
def pyIntCore (l : List Char) : Option Int :=
  match l with
  | '-' :: rest => (natCore rest).map (fun n => -(n : Int))
  | '+' :: rest => (natCore rest).map (fun n => (n : Int))
  | _ => (natCore l).map (fun n => (n : Int))

/-- Python `int(s)`: strips surrounding whitespace, then requires an
optional sign followed by at least one digit.  `int("")` fails. -/
def pyInt (l : List Char) : Option Int :=
  pyIntCore (pystrip l)

/-- Run a fallible parser over every piece; any failure fails the whole
list (Python list comprehension semantics: the first exception aborts). -/
def omap (g : List Char → Option Int) : List (List Char) → Option (List Int)
  | [] => some []
  | p :: ps =>
    match g p, omap g ps with
    | some v, some vs => some (v :: vs)
    | _, _ => none

/-! ## External codec collaborators

The base64/zlib/gzip/zstd codecs are external libraries, not code of this
repository; they are abstracted as fallible functions.  `zstdAvail`
models whether the optional `zstd` module imported successfully. -/

structure Codecs where
  b64 : List Char → Option (List Nat)
  gzip : List Nat → Option (List Nat)
  zlib : List Nat → Option (List Nat)
  zstdAvail : Bool
  zstd : List Nat → Option (List Nat)

/-- Little-endian unsigned 32-bit words of a 4-byte group. -/
def u32sOf : List Nat → List Int
  | b0 :: b1 :: b2 :: b3 :: rest =>
    ((b0 + 256 * b1 + 65536 * b2 + 16777216 * b3 : Nat) : Int) :: u32sOf rest
  | _ => []

/-- Model of `struct.unpack("<%dL" % (len(data) // 4), data)`: fails
unless the byte length is an exact multiple of 4 (struct.error). -/
def unpackLE (data : List Nat) : Option (List Int) :=
  if data.length % 4 = 0 then some (u32sOf data) else none

/-- Python truthiness of an `Optional[str]`: `None` and `""` are falsy. -/
def truthy : Option String → Bool
  | none => false
  | some s => s ≠ ""

/-- Embedding of `pytmx.utils.unpack_gids` (src/pytmx/utils.py, lines
110-140).  Raised exceptions are `none`. -/
def unpack_gids (E : Codecs) (text : List Char)
    (encoding compression : Option String) : Option (List Int) :=
  if encoding = some "base64" then
    (E.b64 text).bind fun data =>
      (if compression = some "gzip" then E.gzip data
       else if compression = some "zlib" then E.zlib data
       else if compression = some "zstd" then
         (if E.zstdAvail then E.zstd data else none)
       else if truthy compression then none
       else some data).bind fun data2 =>
        unpackLE data2
  else if encoding = some "csv" then
    (if pystrip text = [] then some []
     else omap pyInt (splitCh ',' text))
  else if truthy encoding then none
  else some []

/-- Embedding of `pytmx.utils.decode_chunk_data` (src/pytmx/utils.py,
lines 177-222): returns `(gids, raw_data)`; raised exceptions are
`none`. -/
def decode_chunk_data (E : Codecs) (text : List Char)
    (encoding compression : Option String) : Option (List Int × List Nat) :=
  if encoding = some "base64" then
    (E.b64 (pystrip text)).bind fun raw0 =>
      (if compression = some "zlib" then E.zlib raw0
       else if compression = some "gzip" then E.gzip raw0
       else if compression = some "zstd" then
         (if E.zstdAvail then E.zstd raw0 else none)
       else if truthy compression then none
       else some raw0).bind fun raw1 =>
        (unpackLE raw1).map (fun gids => (gids, raw1))
  else if encoding = some "csv" then
    (omap pyInt (splitCh ',' (pystrip text))).map (fun gids => (gids, []))
  else if truthy encoding then none
  else some ([], [])

/-- A concrete `Codecs` instantiation (all codecs fail, zstd unavailable),
used to evaluate the embedded decoders on paths that never call them. -/
def extNone : Codecs :=
  ⟨fun _ => none, fun _ => none, fun _ => none, false, fun _ => none⟩

/-! ## GID codec

The flag constants and the `TileFlags`/`flag_cache` definitions live in
`pytmx/constants.py`, which is not among the provided source files; their
values are fixed by the spec's data model (low 29 bits base id, top 3
bits horizontal/vertical/diagonal flags) and mirrored in the repository's
tests. -/

/-- Modelled from the spec: `GID_TRANS_FLIPX` from `pytmx/constants.py`
(absent from the sources); the horizontal-flip flag is the top bit of a
32-bit GID. -/
def GID_TRANS_FLIPX : Nat := 2 ^ 31

/-- Modelled from the spec: `GID_TRANS_FLIPY` from `pytmx/constants.py`
(absent from the sources); the vertical-flip flag is bit 30. -/
def GID_TRANS_FLIPY : Nat := 2 ^ 30

/-- Modelled from the spec: `GID_TRANS_ROT` from `pytmx/constants.py`
(absent from the sources); the diagonal-flip/rotate flag is bit 29, the
lowest flag bit. -/
def GID_TRANS_ROT : Nat := 2 ^ 29

/-- Modelled from the spec: `GID_MASK` from `pytmx/constants.py` (absent
from the sources); the union of the three flag bits. -/
def GID_MASK : Nat := GID_TRANS_FLIPX ||| GID_TRANS_FLIPY ||| GID_TRANS_ROT

/-- Modelled from the spec: `TileFlags` from `pytmx/constants.py` (absent
from the sources); a triple of booleans
{flipped_horizontally, flipped_vertically, flipped_diagonally}. -/
structure TileFlags where
  flipped_horizontally : Bool
  flipped_vertically : Bool
  flipped_diagonally : Bool
deriving DecidableEq, Repr

/-- Modelled from the spec: `empty_flags` from `pytmx/constants.py`
(absent from the sources); all three flags clear. -/
def empty_flags : TileFlags := ⟨false, false, false⟩

/-- Clearing of the three flag bits, Python `raw_gid & ~GID_MASK` on a
nonnegative unbounded int. -/
def clearFlagBits (raw : Nat) : Nat := raw ^^^ (raw &&& GID_MASK)

/-- Embedding of `pytmx.utils.decode_gid` (src/pytmx/utils.py, lines
86-102).  The process-wide `flag_cache` dict is passed and returned
explicitly as an association list. -/
def decode_gid (cache : List (Nat × TileFlags)) (raw_gid : Nat) :
    (Nat × TileFlags) × List (Nat × TileFlags) :=
  if raw_gid < GID_TRANS_ROT then ((raw_gid, empty_flags), cache)
  else
    match (cache.lookup raw_gid : Option TileFlags) with
    | some fl => ((clearFlagBits raw_gid, fl), cache)
    | none =>
      let flags : TileFlags :=
        ⟨decide (raw_gid &&& GID_TRANS_FLIPX = GID_TRANS_FLIPX),
         decide (raw_gid &&& GID_TRANS_FLIPY = GID_TRANS_FLIPY),
         decide (raw_gid &&& GID_TRANS_ROT = GID_TRANS_ROT)⟩
      ((clearFlagBits raw_gid, flags), (raw_gid, flags) :: cache)

/-- Cache entries agree with the bit tests `decode_gid` itself computes;
the cache is only ever populated by `decode_gid`, so this is invariant. -/
def validCache (cache : List (Nat × TileFlags)) : Prop :=
  ∀ p ∈ cache,
    p.2 = ⟨decide (p.1 &&& GID_TRANS_FLIPX = GID_TRANS_FLIPX),
           decide (p.1 &&& GID_TRANS_FLIPY = GID_TRANS_FLIPY),
           decide (p.1 &&& GID_TRANS_ROT = GID_TRANS_ROT)⟩

/-- Embedding of `pytmx.utils.get_rotation_from_flags` (src/pytmx/utils.py,
lines 74-83). -/
def get_rotation_from_flags (flags : TileFlags) : Nat :=
  if flags.flipped_diagonally then
    if flags.flipped_horizontally && !flags.flipped_vertically then 90
    else if flags.flipped_horizontally && flags.flipped_vertically then 180
    else if !flags.flipped_horizontally && flags.flipped_vertically then 270
    else 0
  else 0

/-! ## Layer reshaping -/

/-- Embedding of `pytmx.utils.reshape_data` (src/pytmx/utils.py, lines
105-107): `[gids[i : i + width] for i in range(0, len(gids), width)]`.
Python `range` with step 0 raises `ValueError`, hence `none` for
`width = 0`. -/
def reshape_data (gids : List Int) (width : Nat) : Option (List (List Int)) :=
  if width = 0 then none
  else
    some ((List.range' 0 ((gids.length + width - 1) / width) width).map
      (fun i => (gids.drop i).take width))

/-- Row-major flattening of a 2D grid (the round-trip partner of
`reshape_data`). -/
def flatten_grid (grid : List (List Int)) : List Int :=
  grid.flatten

/-! ## Chunk stitching

`stitch_chunks` (src/pytmx/chunk.py, lines 105-146) calls the host map's
`register_gid_check_flags` callback, an external collaborator supplied
by `pytmx/map.py` (absent from the sources).  Per the spec's interface
section it is a GID-registration function `raw_gid -> normalized_gid`
with a side effect on the host map state; it is modelled as an explicit
state-passing function `reg : σ → Int → σ × Int`. -/

structure ChunkT where
  px : Int
  py : Int
  cw : Int
  ch : Int
  grid : List (List Int)
  raw : List Nat
deriving DecidableEq, Repr, Inhabited

/-- Write `v` at index `i`, identity when out of range (Python list
assignment is only ever performed in range by `stitch_chunks`). -/
def setIdx {α : Type} : List α → Nat → α → List α
  | [], _, _ => []
  | _ :: as, 0, v => v :: as
  | a :: as, n + 1, v => a :: setIdx as n v

/-- Write cell `(row, col)` of a 2D grid. -/
def setCell (g : List (List Int)) (row col : Nat) (v : Int) : List (List Int) :=
  setIdx g row (setIdx (g.getD row []) col v)

/-- Read cell `(row, col)` of a 2D grid. -/
def getCell (g : List (List Int)) (row col : Nat) : Option Int :=
  (g.get? row).bind (fun r => r.get? col)

/-- Local cell coordinates `(y, x)` of a chunk, in the iteration order of
the nested `for y in range(ch): for x in range(cw)` loops. -/
def cellList (ch cw : Int) : List (Nat × Nat) :=
  (List.range ch.toNat).flatMap (fun y => (List.range cw.toNat).map (fun x => (y, x)))

/-- Body of the inner loop of `stitch_chunks` for one local cell `(y, x)`:
read the raw GID (an out-of-range read raises IndexError, hence `none`),
normalize it through the host callback, and write it into the full grid
when the absolute position is in bounds. -/
def stepCell {σ : Type} (reg : σ → Int → σ × Int) (width height : Nat)
    (c : ChunkT) (acc : List (List Int) × σ) (p : Nat × Nat) :
    Option (List (List Int) × σ) :=
  match (c.grid.get? p.1).bind (fun row => row.get? p.2) with
  | none => none
  | some raw_gid =>
    let r := reg acc.2 raw_gid
    let gx : Int := c.px + p.2
    let gy : Int := c.py + p.1
    if 0 ≤ gx ∧ gx < (width : Int) ∧ 0 ≤ gy ∧ gy < (height : Int) then
      some (setCell acc.1 gy.toNat gx.toNat r.2, r.1)
    else
      some (acc.1, r.1)

/-- One iteration of the outer loop of `stitch_chunks`: a chunk at a
negative position is skipped entirely, otherwise every local cell is
processed in row-major order. -/
def processChunk {σ : Type} (reg : σ → Int → σ × Int) (width height : Nat)
    (acc : List (List Int) × σ) (c : ChunkT) : Option (List (List Int) × σ) :=
  if c.px < 0 ∨ c.py < 0 then some acc
  else (cellList c.ch c.cw).foldlM (stepCell reg width height c) acc

/-- Embedding of `pytmx.chunk.stitch_chunks` (src/pytmx/chunk.py, lines
105-146), threading the host map state `σ` through the
`register_gid_check_flags` callback. -/
def stitch_chunksT {σ : Type} (reg : σ → Int → σ × Int) (chunks : List ChunkT)
    (width height : Nat) (s0 : σ) : Option (List (List Int) × σ) :=
  chunks.foldlM (processChunk reg width height)
    (List.replicate height (List.replicate width 0), s0)

/-- `stitch_chunks` with a state-independent normalization function, the
form the spec gives for the host callback (`register_gid_check_flags
(raw_gid) -> normalized_gid`). -/
def stitch_chunks (f : Int → Int) (chunks : List ChunkT) (width height : Nat) :
    Option (List (List Int)) :=
  (stitch_chunksT (fun (s : Unit) g => (s, f g)) chunks width height ()).map
    Prod.fst

/-- Chunk `c` is at a nonnegative position and its loop ranges reach the
absolute cell `(gx, gy)`. -/
def covers (c : ChunkT) (gx gy : Nat) : Prop :=
  0 ≤ c.px ∧ 0 ≤ c.py ∧
    c.px ≤ (gx : Int) ∧ (gx : Int) < c.px + c.cw ∧
    c.py ≤ (gy : Int) ∧ (gy : Int) < c.py + c.ch

instance (c : ChunkT) (gx gy : Nat) : Decidable (covers c gx gy) := by
  unfold covers; infer_instance

/-- Raw GIDs passed to the host callback, in call order: every local cell
of every non-negatively-positioned chunk, bounds notwithstanding (values
via `getD`, which agrees with the actual reads whenever stitching
succeeds). -/
def expectedCalls (chunks : List ChunkT) : List Int :=
  (chunks.filter (fun c => decide (0 ≤ c.px) && decide (0 ≤ c.py))).flatMap
    (fun c => (cellList c.ch c.cw).map
      (fun p => (c.grid.getD p.1 []).getD p.2 0))

/-! ## Geometry: convexity and separating-axis intersection

Python float arithmetic is modelled as exact rational arithmetic.  The
only non-rational operation, `** 0.5` in the axis normalization of
`intersects_with_polygon`, is abstracted as a function parameter `sq`
(Python guarantees `sq 0 = 0` and positivity on positive inputs). -/

/-- Modelled from the spec: `Point` from `pytmx/constants.py` (absent
from the sources); an `(x, y)` coordinate pair. -/
structure Point where
  x : ℚ
  y : ℚ
deriving DecidableEq, Repr

/-- The cross-product helper nested in `pytmx.utils.is_convex`. -/
def crossP (p1 p2 p3 : Point) : ℚ :=
  (p2.x - p1.x) * (p3.y - p1.y) - (p2.y - p1.y) * (p3.x - p1.x)

/-- Embedding of `pytmx.utils.is_convex` (src/pytmx/utils.py, lines
283-296): sign consistency of consecutive cross products. -/
def is_convex (polygon : List Point) : Bool :=
  let n := polygon.length
  let signs := (List.range n).map (fun i =>
    decide (0 < crossP (polygon.getD i ⟨0, 0⟩)
      (polygon.getD ((i + 1) % n) ⟨0, 0⟩)
      (polygon.getD ((i + 2) % n) ⟨0, 0⟩)))
  signs.all (fun b => b) || signs.all (fun b => !b)

/-- Unnormalized edge normals of a polygon, in edge order: for edge
`p1 → p2` the perpendicular `(-edge.y, edge.x)`. -/
def edgeNormals (polygon : List Point) : List Point :=
  let n := polygon.length
  (List.range n).map (fun i =>
    let p1 := polygon.getD i ⟨0, 0⟩
    let p2 := polygon.getD ((i + 1) % n) ⟨0, 0⟩
    ⟨-(p2.y - p1.y), p2.x - p1.x⟩)

/-- The `get_axes` helper nested in `intersects_with_polygon`
(src/pytmx/object.py, lines 220-229): each normal is divided by its
length `sq (nx² + ny²)`; a zero length raises `ZeroDivisionError`. -/
def get_axes (sq : ℚ → ℚ) (polygon : List Point) : Option (List Point) :=
  (edgeNormals polygon).mapM (fun nrm =>
    let len := sq (nrm.x ^ 2 + nrm.y ^ 2)
    if len = 0 then none else some (⟨nrm.x / len, nrm.y / len⟩ : Point))

/-- The `project` helper nested in `intersects_with_polygon`
(src/pytmx/object.py, lines 231-233): `(min(dots), max(dots))`; Python
`min`/`max` raise on an empty list. -/
def project (polygon : List Point) (axis : Point) : Option (ℚ × ℚ) :=
  match polygon.map (fun p => p.x * axis.x + p.y * axis.y) with
  | [] => none
  | d :: ds => some (ds.foldl min d, ds.foldl max d)

/-- The separating-axis loop of `intersects_with_polygon`: returns
`false` at the first axis separating the projections, `true` if none
does. -/
def satLoop (poly1 poly2 : List Point) : List Point → Option Bool
  | [] => some true
  | ax :: rest =>
    (project poly1 ax).bind fun m1 =>
      (project poly2 ax).bind fun m2 =>
        if m1.2 < m2.1 ∨ m2.2 < m1.1 then some false
        else satLoop poly1 poly2 rest

/-- Embedding of `TiledObject.intersects_with_polygon`
(src/pytmx/object.py, lines 212-243) on the already-transformed vertex
lists of the two objects (`apply_transformations` output, over which the
claim quantifies).  A non-convex input raises `ValueError`, hence
`none`. -/
def intersects_with_polygon (sq : ℚ → ℚ) (poly1 poly2 : List Point) :
    Option Bool :=
  if !is_convex poly1 || !is_convex poly2 then none
  else
    (get_axes sq poly1).bind fun a1 =>
      (get_axes sq poly2).bind fun a2 =>
        satLoop poly1 poly2 (a1 ++ a2)

/-- Axis `ax` separates the projections of the two polygons (the claim's
"some edge-normal axis separates the two projected intervals"). -/
def separatesB (poly1 poly2 : List Point) (ax : Point) : Bool :=
  match project poly1 ax, project poly2 ax with
  | some m1, some m2 => decide (m1.2 < m2.1 ∨ m2.2 < m1.1)
  | _, _ => false

/-! ## Orientation transform -/

/-- Embedding of `pytmx.utils.pixels_to_tile_pos` (src/pytmx/utils.py,
lines 299-370).  Tile dimensions of zero raise `ZeroDivisionError` in
every branch (each divides by a multiple of `tilewidth` and
`tileheight`), hence `none`. -/
def pixels_to_tile_pos (position : Int × Int) (orientation : String)
    (tilewidth tileheight : Int)
    (staggeraxis staggerindex : Option String) : Option (Int × Int) :=
  if tilewidth = 0 ∨ tileheight = 0 then none
  else
    let x : ℚ := (position.1 : ℚ)
    let y : ℚ := (position.2 : ℚ)
    let tw : ℚ := (tilewidth : ℚ)
    let th : ℚ := (tileheight : ℚ)
    if orientation = "orthogonal" then
      some (⌊x / tw⌋, ⌊y / th⌋)
    else if orientation = "isometric" then
      some (⌊(x / tw + y / th) / 2⌋, ⌊(y / th - x / tw) / 2⌋)
    else if orientation = "staggered" then
      if staggeraxis = some "y" then
        let row : Int := ⌊y / (th / 2)⌋
        let offset : ℚ :=
          if (staggerindex = some "odd" ∧ row % 2 = 1) ∨
             (staggerindex = some "even" ∧ row % 2 = 0) then tw / 2 else 0
        some (⌊(x - offset) / tw⌋, row)
      else
        let col : Int := ⌊x / (tw / 2)⌋
        let offset : ℚ :=
          if (staggerindex = some "odd" ∧ col % 2 = 1) ∨
             (staggerindex = some "even" ∧ col % 2 = 0) then th / 2 else 0
        some (col, ⌊(y - offset) / th⌋)
    else if orientation = "hexagonal" then
      if staggeraxis = some "y" then
        let row : Int := ⌊y / (th * (3 / 4))⌋
        let offset : ℚ :=
          if (staggerindex = some "odd" ∧ row % 2 = 1) ∨
             (staggerindex = some "even" ∧ row % 2 = 0) then tw / 2 else 0
        some (⌊(x - offset) / tw⌋, row)
      else
        let col : Int := ⌊x / (tw * (3 / 4))⌋
        let offset : ℚ :=
          if (staggerindex = some "odd" ∧ col % 2 = 1) ∨
             (staggerindex = some "even" ∧ col % 2 = 0) then th / 2 else 0
        some (col, ⌊(y - offset) / th⌋)
    else
      some (⌊x / tw⌋, ⌊y / th⌋)

/-! ## Remaining helper definitions for the statements and proofs -/

/-- Apply `f` to the first element of a list (identity on `[]`). -/
def modHead {α : Type} (f : α → α) : List α → List α
  | [] => []
  | a :: as => f a :: as

/-- Apply `f` to the last element of a list (identity on `[]`). -/
def modLast {α : Type} (f : α → α) : List α → List α
  | [] => []
  | [a] => [f a]
  | a :: b :: as => a :: modLast f (b :: as)

/-- The grid is an `h`-row, `w`-column rectangle. -/
def gridShape (g : List (List Int)) (w h : Nat) : Prop :=
  g.length = h ∧ ∀ row ∈ g, row.length = w

/-! ## Theorems -/

/-- C5: get_rotation_from_flags returns exactly the fixed table: diagonal
with horizontal and not vertical gives 90; diagonal with horizontal and
vertical gives 180; diagonal with vertical and not horizontal gives 270;
diagonal alone gives 0; and any combination without the diagonal flag
gives 0. -/
theorem get_rotation_from_flags_table :
    get_rotation_from_flags ⟨true, false, true⟩ = 90 ∧
    get_rotation_from_flags ⟨true, true, true⟩ = 180 ∧
    get_rotation_from_flags ⟨false, true, true⟩ = 270 ∧
    get_rotation_from_flags ⟨false, false, true⟩ = 0 ∧
    get_rotation_from_flags ⟨false, false, false⟩ = 0 ∧
    get_rotation_from_flags ⟨true, false, false⟩ = 0 ∧
    get_rotation_from_flags ⟨false, true, false⟩ = 0 ∧
    get_rotation_from_flags ⟨true, true, false⟩ = 0 := by
  decide

/-- C2 (counterexample): with encoding unset, unpack_gids silently
returns the empty GID list rather than failing with an encoding error,
contradicting the claim that an unset encoding is fatal. -/
theorem unpack_gids_unset_encoding_counterexample :
    unpack_gids extNone [] none none = some [] := by
  decide

/-- C2 (amended): unpack_gids fails for every truthy encoding other than
"base64" and "csv", and returns the empty list (not an error) when the
encoding is unset (None or the empty string). -/
theorem unpack_gids_encoding_dispatch (E : Codecs) (text : List Char)
    (encoding compression : Option String) :
    (truthy encoding = true → encoding ≠ some "base64" → encoding ≠ some "csv" →
      unpack_gids E text encoding compression = none) ∧
    (truthy encoding = false →
      unpack_gids E text encoding compression = some []) := by
  constructor
  · intro ht h1 h2
    unfold unpack_gids
    simp [h1, h2, ht]
  · intro ht
    have h1 : encoding ≠ some "base64" := by
      rintro rfl; simp [truthy] at ht
    have h2 : encoding ≠ some "csv" := by
      rintro rfl; simp [truthy] at ht
    unfold unpack_gids
    simp [h1, h2, ht]

/-- C2 (witness): a concrete unsupported encoding fails, and a concrete
unset encoding yields the empty list. -/
theorem unpack_gids_encoding_dispatch_witness :
    unpack_gids extNone [] (some "tiles") none = none ∧
    unpack_gids extNone [] none none = some [] :=
  ⟨(unpack_gids_encoding_dispatch extNone [] (some "tiles") none).1
      (by decide) (by decide) (by decide),
   (unpack_gids_encoding_dispatch extNone [] none none).2 (by decide)⟩

/-- C9: with positive tile dimensions, pixels_to_tile_pos on orientation
"orthogonal" returns (floor(x/tilewidth), floor(y/tileheight)), and any
orientation that is none of the four known ones falls back to the same
orthogonal result instead of failing. -/
theorem pixels_to_tile_pos_orthogonal_fallback (x y tilewidth tileheight : Int)
    (orientation : String) (staggeraxis staggerindex : Option String)
    (htw : 0 < tilewidth) (hth : 0 < tileheight)
    (ho : orientation = "orthogonal" ∨
      (orientation ≠ "orthogonal" ∧ orientation ≠ "isometric" ∧
       orientation ≠ "staggered" ∧ orientation ≠ "hexagonal")) :
    pixels_to_tile_pos (x, y) orientation tilewidth tileheight
        staggeraxis staggerindex =
      some (⌊(x : ℚ) / (tilewidth : ℚ)⌋, ⌊(y : ℚ) / (tileheight : ℚ)⌋) := by
  have h1 : ¬(tilewidth = 0 ∨ tileheight = 0) := by omega
  rcases ho with h | ⟨ha, hb, hc, hd⟩
  · subst h
    unfold pixels_to_tile_pos
    simp [h1]
  · unfold pixels_to_tile_pos
    simp [h1, ha, hb, hc, hd]

/-- C9 (witness): the spec's example, pixel (64, 96) with 32×32 tiles,
lands on tile (2, 3) both for "orthogonal" and for an unknown
orientation. -/
theorem pixels_to_tile_pos_orthogonal_fallback_witness :
    pixels_to_tile_pos (64, 96) "orthogonal" 32 32 none none =
      some (⌊(64 : ℚ) / (32 : ℚ)⌋, ⌊(96 : ℚ) / (32 : ℚ)⌋) ∧
    pixels_to_tile_pos (64, 96) "diamond" 32 32 none none =
      some (⌊(64 : ℚ) / (32 : ℚ)⌋, ⌊(96 : ℚ) / (32 : ℚ)⌋) :=
  ⟨pixels_to_tile_pos_orthogonal_fallback 64 96 32 32 "orthogonal" none none
      (by decide) (by decide) (Or.inl rfl),
   pixels_to_tile_pos_orthogonal_fallback 64 96 32 32 "diamond" none none
      (by decide) (by decide)
      (Or.inr ⟨by decide, by decide, by decide, by decide⟩)⟩

/-- C6 (counterexample): the degenerate rectangular grid [[]] (one row of
width 0) does not round-trip: reshape_data on width 0 fails (Python
`range` raises ValueError on step 0) instead of returning the grid. -/
theorem reshape_flatten_roundtrip_counterexample :
    reshape_data (flatten_grid [[]]) 0 = none := by
  decide

/-- C7: a chunk at a negative position contributes nothing: stitching any
chunk list containing it equals stitching the list with it removed (host
state included), and stitching it alone leaves every cell of the
width×height grid at 0. -/
theorem stitch_chunks_negative_skip {σ : Type} (reg : σ → Int → σ × Int)
    (pre post : List ChunkT) (c : ChunkT) (width height : Nat) (s0 : σ)
    (hneg : c.px < 0 ∨ c.py < 0) :
    stitch_chunksT reg (pre ++ c :: post) width height s0 =
      stitch_chunksT reg (pre ++ post) width height s0 ∧
    stitch_chunksT reg [c] width height s0 =
      some (List.replicate height (List.replicate width 0), s0) := by
  have hskip : ∀ acc : List (List Int) × σ,
      processChunk reg width height acc c = some acc := by
    intro acc
    unfold processChunk
    rw [if_pos hneg]
  constructor
  · unfold stitch_chunksT
    rw [List.foldlM_append, List.foldlM_append]
    cases hpre : List.foldlM (processChunk reg width height)
        (List.replicate height (List.replicate width 0), s0) pre with
    | none => rfl
    | some acc => simp [List.foldlM_cons, hskip]
  · unfold stitch_chunksT
    simp [List.foldlM_cons, List.foldlM_nil, hskip]

/-- C7 (witness): a concrete chunk at position (-1, 0) is skipped both
within a longer list and alone. -/
theorem stitch_chunks_negative_skip_witness :
    stitch_chunksT (fun (s : Unit) g => (s, g))
        ([⟨0, 0, 1, 1, [[9]], []⟩] ++ ⟨-1, 0, 2, 2, [[1, 2], [3, 4]], []⟩ ::
          []) 2 2 () =
      stitch_chunksT (fun (s : Unit) g => (s, g))
        ([⟨0, 0, 1, 1, [[9]], []⟩] ++ []) 2 2 () ∧
    stitch_chunksT (fun (s : Unit) g => (s, g))
        [⟨-1, 0, 2, 2, [[1, 2], [3, 4]], []⟩] 2 2 () =
      some (List.replicate 2 (List.replicate 2 0), ()) :=
  stitch_chunks_negative_skip (fun (s : Unit) g => (s, g))
    [⟨0, 0, 1, 1, [[9]], []⟩] [] ⟨-1, 0, 2, 2, [[1, 2], [3, 4]], []⟩ 2 2 ()
    (by decide)

theorem lookup_mem {β : Type} (a : Nat) (l : List (Nat × β)) (b : β)
    (h : l.lookup a = some b) : (a, b) ∈ l := by
  induction l with
  | nil => simp [List.lookup] at h
  | cons p t ih =>
    rcases p with ⟨k, v⟩
    by_cases hk : a = k
    · subst hk
      have he : List.lookup a ((a, v) :: t) = some v := by
        simp [List.lookup]
      rw [he] at h
      cases h
      exact List.mem_cons_self _ _
    · have hb : (a == k) = false := beq_eq_false_iff_ne.mpr hk
      have he : List.lookup a ((k, v) :: t) = List.lookup a t := by
        simp [List.lookup, hb]
      rw [he] at h
      exact List.mem_cons_of_mem _ (ih h)

theorem land_two_pow_eq_iff (raw k : Nat) :
    (raw &&& 2 ^ k = 2 ^ k) ↔ raw.testBit k := by
  constructor
  · intro h
    have := congrArg (fun n => n.testBit k) h
    simpa [Nat.testBit_land, Nat.testBit_two_pow] using this
  · intro h
    apply Nat.eq_of_testBit_eq
    intro i
    rw [Nat.testBit_land, Nat.testBit_two_pow]
    by_cases hik : k = i
    · subst hik
      simp [h]
    · simp [hik]

theorem clearFlagBits_eq_mod (raw : Nat) (h : raw < 2 ^ 32) :
    clearFlagBits raw = raw % 2 ^ 29 := by
  apply Nat.eq_of_testBit_eq
  intro i
  rw [clearFlagBits]
  rw [Nat.testBit_xor, Nat.testBit_land, Nat.testBit_mod_two_pow]
  rw [GID_MASK, GID_TRANS_FLIPX, GID_TRANS_FLIPY, GID_TRANS_ROT]
  rw [Nat.testBit_or, Nat.testBit_or, Nat.testBit_two_pow,
    Nat.testBit_two_pow, Nat.testBit_two_pow]
  by_cases h29 : i < 29
  · have e1 : ¬(31 = i) := by omega
    have e2 : ¬(30 = i) := by omega
    have e3 : ¬(29 = i) := by omega
    simp [e1, e2, e3, h29]
  · by_cases hflag : i = 29 ∨ i = 30 ∨ i = 31
    · have emask : (decide (31 = i) || decide (30 = i) || decide (29 = i)) =
          true := by
        rcases hflag with rfl | rfl | rfl <;> simp
      rw [emask]
      have : ¬(i < 29) := h29
      simp [this]
    · have h32 : 32 ≤ i := by omega
      have hbit : raw.testBit i = false :=
        Nat.testBit_lt_two_pow (Nat.lt_of_lt_of_le h
          (Nat.pow_le_pow_right (by omega) h32))
      have : ¬(i < 29) := h29
      simp [hbit, this]

theorem decide_land_eq_testBit (raw k : Nat) :
    decide (raw &&& 2 ^ k = 2 ^ k) = raw.testBit k := by
  by_cases h : raw.testBit k
  · simp [h, (land_two_pow_eq_iff raw k).2 h]
  · have : ¬(raw &&& 2 ^ k = 2 ^ k) := fun hc =>
      h ((land_two_pow_eq_iff raw k).1 hc)
    simp [h, this]

/-- C4: for raw_gid below 2^29 decode_gid returns the GID unchanged with
empty flags and does not consult or modify the flag cache (for any cache
content); for raw_gid at or above 2^29 (within the 32-bit GID domain,
with the cache holding only entries decode_gid itself computes) the base
gid is raw_gid with the three flag bits cleared and the flags are the
bit tests on bits 31, 30 and 29 of raw_gid. -/
theorem decode_gid_spec :
    (∀ (cache : List (Nat × TileFlags)) (raw_gid : Nat),
      raw_gid < 2 ^ 29 →
      decode_gid cache raw_gid = ((raw_gid, empty_flags), cache)) ∧
    (∀ (cache : List (Nat × TileFlags)) (raw_gid : Nat),
      2 ^ 29 ≤ raw_gid → raw_gid < 2 ^ 32 → validCache cache →
      (decode_gid cache raw_gid).1 =
        (raw_gid % 2 ^ 29,
         ⟨raw_gid.testBit 31, raw_gid.testBit 30, raw_gid.testBit 29⟩)) := by
  constructor
  · intro cache raw_gid h
    unfold decode_gid
    rw [if_pos (by rw [GID_TRANS_ROT]; exact h)]
  · intro cache raw_gid h1 h2 hvalid
    unfold decode_gid
    rw [if_neg (by rw [GID_TRANS_ROT]; omega)]
    have hflags :
        (⟨decide (raw_gid &&& GID_TRANS_FLIPX = GID_TRANS_FLIPX),
          decide (raw_gid &&& GID_TRANS_FLIPY = GID_TRANS_FLIPY),
          decide (raw_gid &&& GID_TRANS_ROT = GID_TRANS_ROT)⟩ : TileFlags) =
        ⟨raw_gid.testBit 31, raw_gid.testBit 30, raw_gid.testBit 29⟩ := by
      rw [GID_TRANS_FLIPX, GID_TRANS_FLIPY, GID_TRANS_ROT]
      rw [decide_land_eq_testBit, decide_land_eq_testBit,
        decide_land_eq_testBit]
    cases hl : (cache.lookup raw_gid : Option TileFlags) with
    | none =>
      simp only []
      rw [clearFlagBits_eq_mod raw_gid h2, hflags]
    | some fl =>
      have hm := lookup_mem raw_gid cache fl hl
      have hfl : fl =
          ⟨decide (raw_gid &&& GID_TRANS_FLIPX = GID_TRANS_FLIPX),
           decide (raw_gid &&& GID_TRANS_FLIPY = GID_TRANS_FLIPY),
           decide (raw_gid &&& GID_TRANS_ROT = GID_TRANS_ROT)⟩ :=
        hvalid (raw_gid, fl) hm
      simp only []
      rw [clearFlagBits_eq_mod raw_gid h2, hfl, hflags]

/-- C4 (witness): GID 5 is returned unchanged with an empty cache left
untouched, and GID 2^31 + 3 decodes to base 3 with the horizontal flag
set. -/
theorem decode_gid_spec_witness :
    decode_gid [] 5 = ((5, empty_flags), []) ∧
    (decode_gid [] (2 ^ 31 + 3)).1 =
      ((2 ^ 31 + 3) % 2 ^ 29,
       ⟨(2 ^ 31 + 3 : Nat).testBit 31, (2 ^ 31 + 3 : Nat).testBit 30,
        (2 ^ 31 + 3 : Nat).testBit 29⟩) :=
  ⟨decode_gid_spec.1 [] 5 (by decide),
   decode_gid_spec.2 [] (2 ^ 31 + 3) (by decide) (by decide)
     (fun p hp => absurd hp (List.not_mem_nil p))⟩

theorem range'_shift (w : Nat) :
    ∀ (n s : Nat), List.range' (s + w) n w = (List.range' s n w).map (· + w) := by
  intro n
  induction n with
  | zero => intro s; rfl
  | succ m ih =>
    intro s
    rw [List.range'_succ, List.range'_succ, List.map_cons, ih (s + w)]

theorem reshape_slice_shift (w : Nat) (r flat : List Int) (hr : r.length = w) :
    ∀ i : Nat, ((r ++ flat).drop (i + w)).take w = (flat.drop i).take w := by
  intro i
  have h1 : (r ++ flat).drop (i + w) = ((r ++ flat).drop w).drop i := by
    rw [List.drop_drop]
    congr 1
    omega
  rw [h1, ← hr, List.drop_left]

/-- C6 (amended): for every rectangular grid with positive row width,
reshaping the row-major flattening with that width returns the original
grid.  (Width 0 is excluded: Python `range` with step 0 raises, as the
counterexample shows.) -/
theorem reshape_flatten_roundtrip (grid : List (List Int)) (width : Nat)
    (hw : 0 < width) (hrect : ∀ row ∈ grid, row.length = width) :
    reshape_data (flatten_grid grid) width = some grid := by
  induction grid with
  | nil =>
    unfold reshape_data flatten_grid
    rw [if_neg (by omega)]
    have hz : (([] : List (List Int)).flatten.length + width - 1) / width = 0 :=
      Nat.div_eq_of_lt (by simp; omega)
    rw [hz]
    rfl
  | cons r rs ih =>
    have hr : r.length = width := hrect r (List.mem_cons_self r rs)
    have hrs : ∀ row ∈ rs, row.length = width := fun row hrow =>
      hrect row (List.mem_cons_of_mem r hrow)
    have ihs := ih hrs
    unfold reshape_data flatten_grid at ihs ⊢
    rw [if_neg (by omega)] at ihs ⊢
    have hlen : (r :: rs).flatten.length = width + rs.flatten.length := by
      rw [List.flatten_cons, List.length_append, hr]
    have hcount : ((r :: rs).flatten.length + width - 1) / width =
        (rs.flatten.length + width - 1) / width + 1 := by
      rw [hlen]
      have he : width + rs.flatten.length + width - 1 =
          (rs.flatten.length + width - 1) + width := by omega
      rw [he, Nat.add_div_right _ hw]
    rw [hcount, List.range'_succ, List.map_cons]
    have hhead : (((r :: rs).flatten.drop 0).take width) = r := by
      rw [List.drop_zero, List.flatten_cons, ← hr, List.take_left]
    have hzw : 0 + width = width := by omega
    have htail :
        (List.range' (0 + width) ((rs.flatten.length + width - 1) / width)
            width).map (fun i => (((r :: rs).flatten).drop i).take width) =
        (List.range' 0 ((rs.flatten.length + width - 1) / width) width).map
          (fun i => (rs.flatten.drop i).take width) := by
      rw [range'_shift, List.map_map]
      apply List.map_congr_left
      intro i _
      show (((r :: rs).flatten).drop (i + width)).take width =
        (rs.flatten.drop i).take width
      rw [List.flatten_cons]
      exact reshape_slice_shift width r rs.flatten hr i
    rw [hhead, htail]
    have hrs2 : (List.range' 0 ((rs.flatten.length + width - 1) / width)
        width).map (fun i => (rs.flatten.drop i).take width) = rs :=
      Option.some.inj ihs
    rw [hrs2]

/-- C6 (witness): a concrete 3×2 grid round-trips. -/
theorem reshape_flatten_roundtrip_witness :
    reshape_data (flatten_grid [[1, 2], [3, 4], [5, 6]]) 2 =
      some [[1, 2], [3, 4], [5, 6]] :=
  reshape_flatten_roundtrip [[1, 2], [3, 4], [5, 6]] 2 (by decide) (by decide)

theorem dropWhile_pyws_idem (l : List Char) :
    (l.dropWhile pyws).dropWhile pyws = l.dropWhile pyws := by
  induction l with
  | nil => rfl
  | cons a as ih =>
    by_cases ha : pyws a
    · rw [List.dropWhile_cons, if_pos ha, ih]
    · rw [List.dropWhile_cons, if_neg ha, List.dropWhile_cons, if_neg ha]

theorem stripR_append_ws (a : Char) (q : List Char) (ha : pyws a = true) :
    stripR (q ++ [a]) = stripR q := by
  unfold stripR
  rw [List.reverse_append, List.reverse_singleton, List.singleton_append,
    List.dropWhile_cons, if_pos ha]

theorem stripR_append_not (a : Char) (q : List Char) (ha : pyws a = false) :
    stripR (q ++ [a]) = q ++ [a] := by
  unfold stripR
  rw [List.reverse_append, List.reverse_singleton, List.singleton_append,
    List.dropWhile_cons, if_neg (by simp [ha]), List.reverse_cons,
    List.reverse_reverse]

theorem dropWhile_append_nil {p : Char → Bool} (l1 l2 : List Char)
    (h : l1.dropWhile p = []) :
    (l1 ++ l2).dropWhile p = l2.dropWhile p := by
  rw [List.dropWhile_append, h]
  rfl

theorem dropWhile_append_cons {p : Char → Bool} (l1 l2 : List Char)
    (h : l1.dropWhile p ≠ []) :
    (l1 ++ l2).dropWhile p = l1.dropWhile p ++ l2 := by
  rw [List.dropWhile_append, if_neg (by simp [h])]

theorem stripL_stripR_comm (l : List Char) :
    stripL (stripR l) = stripR (stripL l) := by
  induction l using List.reverseRecOn with
  | nil => rfl
  | append_singleton xs a ih =>
    by_cases ha : pyws a = true
    · rw [stripR_append_ws a xs ha, ih]
      unfold stripL
      by_cases hxs : xs.dropWhile pyws = []
      · rw [dropWhile_append_nil xs [a] hxs, hxs]
        rw [List.dropWhile_cons, if_pos ha]
        rfl
      · rw [dropWhile_append_cons xs [a] hxs,
          stripR_append_ws a (xs.dropWhile pyws) ha]
    · have ha' : pyws a = false := by
        cases h : pyws a
        · rfl
        · exact absurd h ha
      rw [stripR_append_not a xs ha']
      unfold stripL
      by_cases hxs : xs.dropWhile pyws = []
      · rw [dropWhile_append_nil xs [a] hxs]
        rw [List.dropWhile_cons, if_neg (by simp [ha'])]
        have h1 := stripR_append_not a [] ha'
        rw [List.nil_append] at h1
        rw [h1]
      · rw [dropWhile_append_cons xs [a] hxs,
          stripR_append_not a (xs.dropWhile pyws) ha']

theorem stripR_idem (l : List Char) : stripR (stripR l) = stripR l := by
  unfold stripR
  rw [List.reverse_reverse, dropWhile_pyws_idem]

theorem pystrip_stripL (l : List Char) : pystrip (stripL l) = pystrip l := by
  unfold pystrip stripL
  rw [dropWhile_pyws_idem]

theorem pystrip_stripR (l : List Char) : pystrip (stripR l) = pystrip l := by
  unfold pystrip
  rw [stripL_stripR_comm, stripR_idem]

theorem pyInt_stripL (l : List Char) : pyInt (stripL l) = pyInt l := by
  unfold pyInt
  rw [pystrip_stripL]

theorem pyInt_stripR (l : List Char) : pyInt (stripR l) = pyInt l := by
  unfold pyInt
  rw [pystrip_stripR]

theorem splitCh_ne_nil (c : Char) (l : List Char) : splitCh c l ≠ [] := by
  cases l with
  | nil => simp [splitCh]
  | cons a as =>
    unfold splitCh
    by_cases hac : a = c
    · simp [hac]
    · rw [if_neg hac]
      cases splitCh c as <;> simp

theorem modLast_cons_of_ne_nil {α : Type} (f : α → α) (x : α) (l : List α)
    (h : l ≠ []) : modLast f (x :: l) = x :: modLast f l := by
  cases l with
  | nil => exact absurd rfl h
  | cons b bs => rfl

theorem modLast_append_singleton {α : Type} (f : α → α) (l : List α) (x : α) :
    modLast f (l ++ [x]) = l ++ [f x] := by
  induction l with
  | nil => rfl
  | cons a as ih =>
    rw [List.cons_append, modLast_cons_of_ne_nil f a (as ++ [x]) (by simp),
      ih, List.cons_append]

theorem modLast_comp {α : Type} (f g : α → α) (l : List α) :
    modLast f (modLast g l) = modLast (fun x => f (g x)) l := by
  induction l with
  | nil => rfl
  | cons a as ih =>
    cases as with
    | nil => rfl
    | cons b bs =>
      rw [modLast_cons_of_ne_nil g a (b :: bs) (by simp),
        modLast_cons_of_ne_nil f a (modLast g (b :: bs))
          (by cases bs <;> simp [modLast]),
        modLast_cons_of_ne_nil (fun x => f (g x)) a (b :: bs) (by simp), ih]

theorem modLast_congr {α : Type} (f g : α → α) (l : List α)
    (h : ∀ x, f x = g x) : modLast f l = modLast g l := by
  induction l with
  | nil => rfl
  | cons a as ih =>
    cases as with
    | nil => show [f a] = [g a]; rw [h a]
    | cons b bs =>
      rw [modLast_cons_of_ne_nil f a (b :: bs) (by simp),
        modLast_cons_of_ne_nil g a (b :: bs) (by simp), ih]

theorem splitCh_cons_eq (c : Char) (as : List Char) :
    splitCh c (c :: as) = [] :: splitCh c as := by
  simp [splitCh]

theorem splitCh_cons_ne (c a : Char) (as : List Char) (hac : a ≠ c)
    (p : List Char) (ps : List (List Char)) (hs : splitCh c as = p :: ps) :
    splitCh c (a :: as) = (a :: p) :: ps := by
  unfold splitCh
  rw [if_neg hac, hs]

theorem splitCh_cons_exists (c : Char) (as : List Char) :
    ∃ p ps, splitCh c as = p :: ps := by
  cases h : splitCh c as with
  | nil => exact absurd h (splitCh_ne_nil c as)
  | cons p ps => exact ⟨p, ps, rfl⟩

theorem splitCh_dropWhile (c : Char) (hc : pyws c = false) (l : List Char) :
    splitCh c (l.dropWhile pyws) = modHead (List.dropWhile pyws) (splitCh c l) := by
  induction l with
  | nil => rfl
  | cons a as ih =>
    by_cases ha : pyws a = true
    · have hac : a ≠ c := fun he => by rw [he, hc] at ha; cases ha
      rw [List.dropWhile_cons, if_pos ha, ih]
      obtain ⟨p, ps, hs⟩ := splitCh_cons_exists c as
      rw [splitCh_cons_ne c a as hac p ps hs, hs]
      show List.dropWhile pyws p :: ps = List.dropWhile pyws (a :: p) :: ps
      rw [List.dropWhile_cons, if_pos ha]
    · rw [List.dropWhile_cons, if_neg ha]
      by_cases hac : a = c
      · subst hac
        rw [splitCh_cons_eq a as]
        rfl
      · obtain ⟨p, ps, hs⟩ := splitCh_cons_exists c as
        rw [splitCh_cons_ne c a as hac p ps hs]
        show ((a :: p) :: ps : List (List Char)) =
          List.dropWhile pyws (a :: p) :: ps
        rw [List.dropWhile_cons, if_neg ha]

theorem splitCh_append_sep (c : Char) (xs : List Char) :
    splitCh c (xs ++ [c]) = splitCh c xs ++ [[]] := by
  induction xs with
  | nil =>
    rw [List.nil_append, splitCh_cons_eq c []]
    rfl
  | cons b bs ih =>
    rw [List.cons_append]
    by_cases hbc : b = c
    · subst hbc
      rw [splitCh_cons_eq b (bs ++ [b]), splitCh_cons_eq b bs, ih]
      rfl
    · obtain ⟨p, ps, hs⟩ := splitCh_cons_exists c bs
      have h2 : splitCh c (bs ++ [c]) = p :: (ps ++ [[]]) := by
        rw [ih, hs]
        rfl
      rw [splitCh_cons_ne c b (bs ++ [c]) hbc p (ps ++ [[]]) h2,
        splitCh_cons_ne c b bs hbc p ps hs]
      rfl

theorem splitCh_append_other (c a : Char) (hac : a ≠ c) (xs : List Char) :
    splitCh c (xs ++ [a]) = modLast (· ++ [a]) (splitCh c xs) := by
  induction xs with
  | nil =>
    rw [List.nil_append]
    rw [splitCh_cons_ne c a [] hac [] [] rfl]
    show ([[a]] : List (List Char)) = [[] ++ [a]]
    rw [List.nil_append]
  | cons b bs ih =>
    rw [List.cons_append]
    by_cases hbc : b = c
    · subst hbc
      rw [splitCh_cons_eq b (bs ++ [a]), ih, splitCh_cons_eq b bs,
        modLast_cons_of_ne_nil (· ++ [a]) [] (splitCh b bs)
          (splitCh_ne_nil b bs)]
    · obtain ⟨p, ps, hs⟩ := splitCh_cons_exists c bs
      cases ps with
      | nil =>
        have h2 : splitCh c (bs ++ [a]) = (p ++ [a]) :: [] := by
          rw [ih, hs]
          rfl
        rw [splitCh_cons_ne c b (bs ++ [a]) hbc (p ++ [a]) [] h2,
          splitCh_cons_ne c b bs hbc p [] hs]
        show ([b :: (p ++ [a])] : List (List Char)) = [(b :: p) ++ [a]]
        rw [List.cons_append]
      | cons q qs =>
        have h2 : splitCh c (bs ++ [a]) =
            p :: modLast (· ++ [a]) (q :: qs) := by
          rw [ih, hs, modLast_cons_of_ne_nil (· ++ [a]) p (q :: qs) (by simp)]
        rw [splitCh_cons_ne c b (bs ++ [a]) hbc p
            (modLast (· ++ [a]) (q :: qs)) h2,
          splitCh_cons_ne c b bs hbc p (q :: qs) hs,
          modLast_cons_of_ne_nil (· ++ [a]) (b :: p) (q :: qs) (by simp)]

theorem splitCh_stripR (c : Char) (hc : pyws c = false) (q : List Char) :
    splitCh c (stripR q) = modLast stripR (splitCh c q) := by
  induction q using List.reverseRecOn with
  | nil => rfl
  | append_singleton xs a ih =>
    by_cases ha : pyws a = true
    · have hac : a ≠ c := fun he => by rw [he, hc] at ha; cases ha
      rw [stripR_append_ws a xs ha, ih, splitCh_append_other c a hac xs,
        modLast_comp]
      exact (modLast_congr _ _ _ (fun p => stripR_append_ws a p ha)).symm
    · have ha' : pyws a = false := by
        cases h : pyws a
        · rfl
        · exact absurd h ha
      rw [stripR_append_not a xs ha']
      by_cases hac : a = c
      · subst hac
        rw [splitCh_append_sep a xs, modLast_append_singleton]
        rfl
      · rw [splitCh_append_other c a hac xs, modLast_comp]
        exact modLast_congr _ _ _ (fun p => (stripR_append_not a p ha').symm)

theorem omap_modHead (g : List Char → Option Int) (f : List Char → List Char)
    (hg : ∀ p, g (f p) = g p) (xs : List (List Char)) :
    omap g (modHead f xs) = omap g xs := by
  cases xs with
  | nil => rfl
  | cons p ps =>
    show omap g (f p :: ps) = omap g (p :: ps)
    unfold omap
    rw [hg p]

theorem omap_modLast (g : List Char → Option Int) (f : List Char → List Char)
    (hg : ∀ p, g (f p) = g p) (xs : List (List Char)) :
    omap g (modLast f xs) = omap g xs := by
  induction xs with
  | nil => rfl
  | cons p ps ih =>
    cases ps with
    | nil =>
      show omap g [f p] = omap g [p]
      unfold omap
      rw [hg p]
    | cons q qs =>
      rw [modLast_cons_of_ne_nil f p (q :: qs) (by simp)]
      show omap g (p :: modLast f (q :: qs)) = omap g (p :: q :: qs)
      unfold omap
      rw [ih]

theorem omap_pyInt_splitCh_pystrip (t : List Char) :
    omap pyInt (splitCh ',' (pystrip t)) = omap pyInt (splitCh ',' t) := by
  have hc : pyws ',' = false := by decide
  unfold pystrip
  rw [splitCh_stripR ',' hc (stripL t),
    omap_modLast pyInt stripR pyInt_stripR]
  show omap pyInt (splitCh ',' ((t : List Char).dropWhile pyws)) =
    omap pyInt (splitCh ',' t)
  rw [splitCh_dropWhile ',' hc t,
    omap_modHead pyInt (List.dropWhile pyws) pyInt_stripL]

/-- C1 (counterexample): on csv encoding with empty text, unpack_gids
returns the empty sequence but decode_chunk_data fails (Python
`int("")` raises ValueError on the single piece produced by splitting
the stripped empty string), so the two decoders do not fail under the
same conditions. -/
theorem decode_chunk_data_blank_csv_counterexample :
    unpack_gids extNone [] (some "csv") none = some [] ∧
    decode_chunk_data extNone [] (some "csv") none = none := by
  decide

/-- C1 (amended): provided the external base64 decoder ignores
surrounding whitespace (as Python's does), decode_chunk_data and
unpack_gids produce the same GID sequence and fail under the same
conditions on every input triple, except that on csv encoding with
empty or blank text unpack_gids yields the empty sequence while
decode_chunk_data fails. -/
theorem decode_chunk_data_refines_unpack_gids (E : Codecs)
    (hb64 : ∀ t : List Char, E.b64 (pystrip t) = E.b64 t)
    (text : List Char) (encoding compression : Option String) :
    (encoding = some "csv" ∧ pystrip text = [] →
      unpack_gids E text encoding compression = some [] ∧
      decode_chunk_data E text encoding compression = none) ∧
    (¬(encoding = some "csv" ∧ pystrip text = []) →
      (decode_chunk_data E text encoding compression).map Prod.fst =
        unpack_gids E text encoding compression) := by
  constructor
  · rintro ⟨he, hblank⟩
    subst he
    constructor
    · unfold unpack_gids
      rw [if_neg (show ¬((some "csv" : Option String) = some "base64") by
        decide), if_pos rfl, if_pos hblank]
    · unfold decode_chunk_data
      rw [if_neg (show ¬((some "csv" : Option String) = some "base64") by
        decide), if_pos rfl, hblank]
      rfl
  · intro hnot
    by_cases hb : encoding = some "base64"
    · subst hb
      unfold unpack_gids decode_chunk_data
      rw [if_pos rfl, if_pos rfl, hb64 text]
      cases hdata : E.b64 text with
      | none => rfl
      | some data =>
        simp only [Option.some_bind]
        have hch : (if compression = some "zlib" then E.zlib data
             else if compression = some "gzip" then E.gzip data
             else if compression = some "zstd" then
               (if E.zstdAvail then E.zstd data else none)
             else if truthy compression then none
             else some data) =
            (if compression = some "gzip" then E.gzip data
             else if compression = some "zlib" then E.zlib data
             else if compression = some "zstd" then
               (if E.zstdAvail then E.zstd data else none)
             else if truthy compression then none
             else some data) := by
          by_cases h1 : compression = some "zlib"
          · subst h1
            rw [if_pos rfl,
              if_neg (show ¬((some "zlib" : Option String) = some "gzip") by
                decide), if_pos rfl]
          · by_cases h2 : compression = some "gzip"
            · subst h2
              rw [if_neg (show ¬((some "gzip" : Option String) = some "zlib")
                  by decide), if_pos rfl, if_pos rfl]
            · rw [if_neg h1, if_neg h2, if_neg h2, if_neg h1]
        rw [hch]
        cases hc1 : (if compression = some "gzip" then E.gzip data
             else if compression = some "zlib" then E.zlib data
             else if compression = some "zstd" then
               (if E.zstdAvail then E.zstd data else none)
             else if truthy compression then none
             else some data) with
        | none => rfl
        | some raw1 =>
          simp only [Option.some_bind, Option.map_map]
          cases unpackLE raw1 with
          | none => rfl
          | some gids => rfl
    · by_cases hcsv : encoding = some "csv"
      · subst hcsv
        have hnb : pystrip text ≠ [] := fun h => hnot ⟨rfl, h⟩
        unfold unpack_gids decode_chunk_data
        rw [if_neg (show ¬((some "csv" : Option String) = some "base64") by
          decide), if_neg (show ¬((some "csv" : Option String) = some "base64")
          by decide), if_pos rfl, if_pos rfl, if_neg hnb]
        rw [omap_pyInt_splitCh_pystrip text]
        cases omap pyInt (splitCh ',' text) with
        | none => rfl
        | some gids => rfl
      · unfold unpack_gids decode_chunk_data
        rw [if_neg hb, if_neg hb, if_neg hcsv, if_neg hcsv]
        by_cases ht : truthy encoding
        · rw [if_pos ht, if_pos ht]
          rfl
        · rw [if_neg (by simp [ht]), if_neg (by simp [ht])]
          rfl

/-- C1 (witness): on a concrete non-blank csv payload both decoders
yield the same GID sequence. -/
theorem decode_chunk_data_refines_unpack_gids_witness :
    (decode_chunk_data extNone [' ', '1', ',', '2', ' '] (some "csv")
        none).map Prod.fst =
      unpack_gids extNone [' ', '1', ',', '2', ' '] (some "csv") none :=
  (decode_chunk_data_refines_unpack_gids extNone (fun _ => rfl)
    [' ', '1', ',', '2', ' '] (some "csv") none).2 (by decide)

theorem setIdx_length {α : Type} (l : List α) (i : Nat) (v : α) :
    (setIdx l i v).length = l.length := by
  induction l generalizing i with
  | nil => rfl
  | cons a as ih =>
    cases i with
    | zero => rfl
    | succ n => simp [setIdx, ih n]

theorem setIdx_oob {α : Type} (l : List α) (i : Nat) (v : α)
    (h : l.length ≤ i) : setIdx l i v = l := by
  induction l generalizing i with
  | nil => rfl
  | cons a as ih =>
    cases i with
    | zero => simp at h
    | succ n =>
      show a :: setIdx as n v = a :: as
      rw [ih n (by simpa using h)]

theorem get?_setIdx_eq {α : Type} (l : List α) (i : Nat) (v : α)
    (h : i < l.length) : (setIdx l i v).get? i = some v := by
  induction l generalizing i with
  | nil => simp at h
  | cons a as ih =>
    cases i with
    | zero => rfl
    | succ n => exact ih n (by simpa using h)

theorem get?_setIdx_ne {α : Type} (l : List α) (i j : Nat) (v : α)
    (h : i ≠ j) : (setIdx l i v).get? j = l.get? j := by
  induction l generalizing i j with
  | nil => rfl
  | cons a as ih =>
    cases i with
    | zero =>
      cases j with
      | zero => exact absurd rfl h
      | succ m => rfl
    | succ n =>
      cases j with
      | zero => rfl
      | succ m => exact ih n m (fun he => h (by rw [he]))

theorem mem_setIdx {α : Type} (l : List α) (i : Nat) (v a : α)
    (h : a ∈ setIdx l i v) : a = v ∨ a ∈ l := by
  induction l generalizing i with
  | nil => simp [setIdx] at h
  | cons b bs ih =>
    cases i with
    | zero =>
      rcases List.mem_cons.1 h with h1 | h1
      · exact Or.inl h1
      · exact Or.inr (List.mem_cons_of_mem b h1)
    | succ n =>
      rcases List.mem_cons.1 h with h1 | h1
      · exact Or.inr (by rw [h1]; exact List.mem_cons_self b bs)
      · rcases ih n h1 with h2 | h2
        · exact Or.inl h2
        · exact Or.inr (List.mem_cons_of_mem b h2)

theorem getD_of_get? {α : Type} (l : List α) (n : Nat) (a d : α)
    (h : l.get? n = some a) : l.getD n d = a := by
  rw [List.getD_eq_getElem?_getD, ← List.get?_eq_getElem?, h]
  rfl

theorem getCell_setCell_eq (g : List (List Int)) (row col : Nat) (v : Int)
    (r : List Int) (hr : g.get? row = some r) (hcol : col < r.length) :
    getCell (setCell g row col v) row col = some v := by
  have hrow : row < g.length := by
    rcases List.get?_eq_some.1 hr with ⟨h, _⟩
    exact h
  unfold getCell setCell
  rw [getD_of_get? g row r [] hr]
  rw [get?_setIdx_eq g row (setIdx r col v) hrow]
  show (setIdx r col v).get? col = some v
  exact get?_setIdx_eq r col v hcol

theorem getCell_setCell_ne (g : List (List Int)) (row col row' col' : Nat)
    (v : Int) (h : row ≠ row' ∨ col ≠ col') :
    getCell (setCell g row col v) row' col' = getCell g row' col' := by
  unfold getCell setCell
  rcases h with h | h
  · rw [get?_setIdx_ne g row row' _ h]
  · by_cases hrow : row = row'
    · subst hrow
      by_cases hlen : row < g.length
      · rw [get?_setIdx_eq g row _ hlen]
        cases hg : g.get? row with
        | none =>
          rw [List.get?_eq_getElem?, List.getElem?_eq_none_iff] at hg
          omega
        | some r =>
          rw [getD_of_get? g row r [] hg]
          show (setIdx r col v).get? col' = r.get? col'
          exact get?_setIdx_ne r col col' v h
      · rw [setIdx_oob g row _ (by omega)]
    · rw [get?_setIdx_ne g row row' _ hrow]

theorem gridShape_setCell (g : List (List Int)) (w h row col : Nat) (v : Int)
    (hs : gridShape g w h) : gridShape (setCell g row col v) w h := by
  by_cases hrow : row < g.length
  · obtain ⟨hlen, hrows⟩ := hs
    constructor
    · rw [setCell, setIdx_length, hlen]
    · intro r hr
      rcases mem_setIdx _ _ _ _ hr with h1 | h1
      · subst h1
        rw [setIdx_length]
        cases hg : g.get? row with
        | none =>
          rw [List.get?_eq_getElem?, List.getElem?_eq_none_iff] at hg
          omega
        | some r0 =>
          rw [getD_of_get? g row r0 [] hg]
          exact hrows r0 (List.get?_mem hg)
      · exact hrows r h1
  · unfold setCell
    rw [setIdx_oob g row _ (by omega)]
    exact hs

theorem gridShape_replicate (w h : Nat) :
    gridShape (List.replicate h (List.replicate w 0)) w h := by
  constructor
  · rw [List.length_replicate]
  · intro r hr
    rw [List.eq_of_mem_replicate hr, List.length_replicate]

theorem stepCell_shape {σ : Type} (reg : σ → Int → σ × Int) (w h : Nat)
    (c : ChunkT) (acc acc' : List (List Int) × σ) (p : Nat × Nat)
    (hstep : stepCell reg w h c acc p = some acc')
    (hs : gridShape acc.1 w h) : gridShape acc'.1 w h := by
  unfold stepCell at hstep
  cases hacc : (c.grid.get? p.1).bind (fun row => row.get? p.2) with
  | none => rw [hacc] at hstep; cases hstep
  | some raw =>
    rw [hacc] at hstep
    simp only [] at hstep
    by_cases hcond : 0 ≤ c.px + (p.2 : Int) ∧ c.px + (p.2 : Int) < (w : Int) ∧
        0 ≤ c.py + (p.1 : Int) ∧ c.py + (p.1 : Int) < (h : Int)
    · rw [if_pos hcond] at hstep
      cases hstep
      exact gridShape_setCell _ _ _ _ _ _ hs
    · rw [if_neg hcond] at hstep
      cases hstep
      exact hs

theorem stepCell_no_hit {σ : Type} (reg : σ → Int → σ × Int) (w h : Nat)
    (c : ChunkT) (acc acc' : List (List Int) × σ) (p : Nat × Nat)
    (gx gy : Nat)
    (hstep : stepCell reg w h c acc p = some acc')
    (hmiss : ¬(c.py + (p.1 : Int) = (gy : Int) ∧
               c.px + (p.2 : Int) = (gx : Int))) :
    getCell acc'.1 gy gx = getCell acc.1 gy gx := by
  unfold stepCell at hstep
  cases hacc : (c.grid.get? p.1).bind (fun row => row.get? p.2) with
  | none => rw [hacc] at hstep; cases hstep
  | some raw =>
    rw [hacc] at hstep
    simp only [] at hstep
    by_cases hcond : 0 ≤ c.px + (p.2 : Int) ∧ c.px + (p.2 : Int) < (w : Int) ∧
        0 ≤ c.py + (p.1 : Int) ∧ c.py + (p.1 : Int) < (h : Int)
    · rw [if_pos hcond] at hstep
      cases hstep
      apply getCell_setCell_ne
      by_cases hy : c.py + (p.1 : Int) = (gy : Int)
      · right
        have hx : ¬(c.px + (p.2 : Int) = (gx : Int)) := fun hx =>
          hmiss ⟨hy, hx⟩
        omega
      · left
        omega
    · rw [if_neg hcond] at hstep
      cases hstep
      rfl

theorem stepCell_hit {σ : Type} (reg : σ → Int → σ × Int) (w h : Nat)
    (c : ChunkT) (acc acc' : List (List Int) × σ) (p : Nat × Nat)
    (gx gy : Nat)
    (hstep : stepCell reg w h c acc p = some acc')
    (hhit : c.py + (p.1 : Int) = (gy : Int) ∧ c.px + (p.2 : Int) = (gx : Int))
    (hgx : gx < w) (hgy : gy < h)
    (hs : gridShape acc.1 w h) :
    getCell acc'.1 gy gx =
      some ((reg acc.2 ((c.grid.getD p.1 []).getD p.2 0)).2) := by
  unfold stepCell at hstep
  cases hacc : (c.grid.get? p.1).bind (fun row => row.get? p.2) with
  | none => rw [hacc] at hstep; cases hstep
  | some raw =>
    rw [hacc] at hstep
    simp only [] at hstep
    have hcond : 0 ≤ c.px + (p.2 : Int) ∧ c.px + (p.2 : Int) < (w : Int) ∧
        0 ≤ c.py + (p.1 : Int) ∧ c.py + (p.1 : Int) < (h : Int) := by
      omega
    rw [if_pos hcond] at hstep
    cases hstep
    have hrawD : (c.grid.getD p.1 []).getD p.2 0 = raw := by
      cases hg1 : c.grid.get? p.1 with
      | none => rw [hg1] at hacc; cases hacc
      | some row =>
        rw [hg1] at hacc
        simp only [Option.some_bind] at hacc
        rw [getD_of_get? c.grid p.1 row [] hg1, getD_of_get? row p.2 raw 0 hacc]
    rw [hrawD]
    have hyn : (c.py + (p.1 : Int)).toNat = gy := by omega
    have hxn : (c.px + (p.2 : Int)).toNat = gx := by omega
    rw [hyn, hxn]
    obtain ⟨hlen, hrows⟩ := hs
    have hgy' : gy < acc.1.length := by omega
    cases hg : acc.1.get? gy with
    | none =>
      rw [List.get?_eq_getElem?, List.getElem?_eq_none_iff] at hg
      omega
    | some r =>
      apply getCell_setCell_eq acc.1 gy gx _ r hg
      rw [hrows r (List.get?_mem hg)]
      exact hgx

theorem foldCells_shape {σ : Type} (reg : σ → Int → σ × Int) (w h : Nat)
    (c : ChunkT) (pairs : List (Nat × Nat))
    (acc acc' : List (List Int) × σ)
    (hfold : pairs.foldlM (stepCell reg w h c) acc = some acc')
    (hs : gridShape acc.1 w h) : gridShape acc'.1 w h := by
  induction pairs generalizing acc with
  | nil =>
    cases hfold
    exact hs
  | cons p ps ih =>
    rw [List.foldlM_cons] at hfold
    cases hstep : stepCell reg w h c acc p with
    | none => rw [hstep] at hfold; cases hfold
    | some acc1 =>
      rw [hstep] at hfold
      exact ih acc1 hfold (stepCell_shape reg w h c acc acc1 p hstep hs)

theorem foldCells_no_hit {σ : Type} (reg : σ → Int → σ × Int) (w h : Nat)
    (c : ChunkT) (pairs : List (Nat × Nat))
    (acc acc' : List (List Int) × σ) (gx gy : Nat)
    (hfold : pairs.foldlM (stepCell reg w h c) acc = some acc')
    (hmiss : ∀ p ∈ pairs, ¬(c.py + (p.1 : Int) = (gy : Int) ∧
               c.px + (p.2 : Int) = (gx : Int))) :
    getCell acc'.1 gy gx = getCell acc.1 gy gx := by
  induction pairs generalizing acc with
  | nil =>
    cases hfold
    rfl
  | cons p ps ih =>
    rw [List.foldlM_cons] at hfold
    cases hstep : stepCell reg w h c acc p with
    | none => rw [hstep] at hfold; cases hfold
    | some acc1 =>
      rw [hstep] at hfold
      rw [ih acc1 hfold (fun q hq => hmiss q (List.mem_cons_of_mem p hq))]
      exact stepCell_no_hit reg w h c acc acc1 p gx gy hstep
        (hmiss p (List.mem_cons_self p ps))

theorem cellList_mem_iff (ch cw : Int) (p : Nat × Nat) :
    p ∈ cellList ch cw ↔ p.1 < ch.toNat ∧ p.2 < cw.toNat := by
  unfold cellList
  constructor
  · intro hp
    rcases List.mem_flatMap.1 hp with ⟨y, hy, hmem⟩
    rcases List.mem_map.1 hmem with ⟨x, hx, rfl⟩
    exact ⟨List.mem_range.1 hy, List.mem_range.1 hx⟩
  · intro ⟨h1, h2⟩
    apply List.mem_flatMap.2
    exact ⟨p.1, List.mem_range.2 h1,
      List.mem_map.2 ⟨p.2, List.mem_range.2 h2, rfl⟩⟩

theorem mem_last_split {α : Type} [DecidableEq α] (a : α) (l : List α)
    (h : a ∈ l) : ∃ l1 l2, l = l1 ++ a :: l2 ∧ a ∉ l2 := by
  induction l with
  | nil => cases h
  | cons b t ih =>
    by_cases hat : a ∈ t
    · rcases ih hat with ⟨t1, t2, heq, hnot⟩
      exact ⟨b :: t1, t2, by rw [heq]; rfl, hnot⟩
    · have hab : a = b := by
        rcases List.mem_cons.1 h with h1 | h1
        · exact h1
        · exact absurd h1 hat
      subst hab
      exact ⟨[], t, rfl, hat⟩

theorem processChunk_shape {σ : Type} (reg : σ → Int → σ × Int) (w h : Nat)
    (acc acc' : List (List Int) × σ) (c : ChunkT)
    (hp : processChunk reg w h acc c = some acc')
    (hs : gridShape acc.1 w h) : gridShape acc'.1 w h := by
  unfold processChunk at hp
  by_cases hneg : c.px < 0 ∨ c.py < 0
  · rw [if_pos hneg] at hp
    cases hp
    exact hs
  · rw [if_neg hneg] at hp
    exact foldCells_shape reg w h c _ acc acc' hp hs

theorem processChunk_no_cover {σ : Type} (reg : σ → Int → σ × Int) (w h : Nat)
    (acc acc' : List (List Int) × σ) (c : ChunkT) (gx gy : Nat)
    (hp : processChunk reg w h acc c = some acc')
    (hnc : ¬ covers c gx gy) :
    getCell acc'.1 gy gx = getCell acc.1 gy gx := by
  unfold processChunk at hp
  by_cases hneg : c.px < 0 ∨ c.py < 0
  · rw [if_pos hneg] at hp
    cases hp
    rfl
  · rw [if_neg hneg] at hp
    apply foldCells_no_hit reg w h c _ acc acc' gx gy hp
    intro p hpmem hhit
    rcases (cellList_mem_iff c.ch c.cw p).1 hpmem with ⟨h1, h2⟩
    obtain ⟨hy, hx⟩ := hhit
    apply hnc
    exact ⟨by omega, by omega, by omega, by omega, by omega, by omega⟩

theorem processChunk_cover (f : Int → Int) (w h : Nat)
    (acc acc' : List (List Int) × Unit) (c : ChunkT) (gx gy : Nat)
    (hp : processChunk (fun (s : Unit) g => (s, f g)) w h acc c = some acc')
    (hcov : covers c gx gy) (hgx : gx < w) (hgy : gy < h)
    (hs : gridShape acc.1 w h) :
    getCell acc'.1 gy gx =
      some (f ((c.grid.getD ((gy : Int) - c.py).toNat []).getD
        ((gx : Int) - c.px).toNat 0)) := by
  obtain ⟨hpx, hpy, hx1, hx2, hy1, hy2⟩ := hcov
  unfold processChunk at hp
  rw [if_neg (by omega)] at hp
  have hmem : (((gy : Int) - c.py).toNat, ((gx : Int) - c.px).toNat) ∈
      cellList c.ch c.cw :=
    (cellList_mem_iff _ _ _).2 ⟨by omega, by omega⟩
  obtain ⟨l1, l2, hdecomp, hnot⟩ := mem_last_split _ _ hmem
  rw [hdecomp, List.foldlM_append] at hp
  cases h1 : List.foldlM (stepCell (fun (s : Unit) g => (s, f g)) w h c)
      acc l1 with
  | none => rw [h1] at hp; cases hp
  | some acc1 =>
    rw [h1] at hp
    simp only [Option.bind_eq_bind, Option.some_bind] at hp
    rw [List.foldlM_cons] at hp
    cases h2 : stepCell (fun (s : Unit) g => (s, f g)) w h c acc1
        (((gy : Int) - c.py).toNat, ((gx : Int) - c.px).toNat) with
    | none => rw [h2] at hp; cases hp
    | some acc2 =>
      rw [h2] at hp
      simp only [Option.bind_eq_bind, Option.some_bind] at hp
      have hs1 := foldCells_shape _ w h c l1 acc acc1 h1 hs
      have hhit : c.py + ((((gy : Int) - c.py).toNat : Nat) : Int) =
          (gy : Int) ∧
          c.px + ((((gx : Int) - c.px).toNat : Nat) : Int) = (gx : Int) :=
        ⟨by omega, by omega⟩
      have hcell := stepCell_hit _ w h c acc1 acc2 _ gx gy h2 hhit hgx hgy hs1
      rw [foldCells_no_hit _ w h c l2 acc2 acc' gx gy hp ?miss, hcell]
      case miss =>
        intro q hq hhitq
        apply hnot
        have hq1 : q.1 = ((gy : Int) - c.py).toNat := by omega
        have hq2 : q.2 = ((gx : Int) - c.px).toNat := by omega
        have : q = (((gy : Int) - c.py).toNat, ((gx : Int) - c.px).toNat) := by
          rw [← hq1, ← hq2]
        rw [← this]
        exact hq

theorem foldChunks_shape {σ : Type} (reg : σ → Int → σ × Int) (w h : Nat)
    (chunks : List ChunkT) (acc acc' : List (List Int) × σ)
    (hfold : chunks.foldlM (processChunk reg w h) acc = some acc')
    (hs : gridShape acc.1 w h) : gridShape acc'.1 w h := by
  induction chunks generalizing acc with
  | nil =>
    cases hfold
    exact hs
  | cons c rest ih =>
    rw [List.foldlM_cons] at hfold
    cases hc : processChunk reg w h acc c with
    | none => rw [hc] at hfold; cases hfold
    | some acc1 =>
      rw [hc] at hfold
      exact ih acc1 hfold (processChunk_shape reg w h acc acc1 c hc hs)

theorem foldChunks_no_cover {σ : Type} (reg : σ → Int → σ × Int) (w h : Nat)
    (chunks : List ChunkT) (acc acc' : List (List Int) × σ) (gx gy : Nat)
    (hfold : chunks.foldlM (processChunk reg w h) acc = some acc')
    (hnc : ∀ d ∈ chunks, ¬ covers d gx gy) :
    getCell acc'.1 gy gx = getCell acc.1 gy gx := by
  induction chunks generalizing acc with
  | nil =>
    cases hfold
    rfl
  | cons c rest ih =>
    rw [List.foldlM_cons] at hfold
    cases hc : processChunk reg w h acc c with
    | none => rw [hc] at hfold; cases hfold
    | some acc1 =>
      rw [hc] at hfold
      rw [ih acc1 hfold (fun d hd => hnc d (List.mem_cons_of_mem c hd))]
      exact processChunk_no_cover reg w h acc acc1 c gx gy hc
        (hnc c (List.mem_cons_self c rest))

/-- C3: when several chunks cover the same in-bounds absolute cell, the
stitched grid holds that cell's value from the chunk appearing last in
the input list (normalized through the host registration function):
overlaps resolve last-applied-chunk-wins in input order. -/
theorem stitch_chunks_last_chunk_wins (f : Int → Int) (chunks : List ChunkT)
    (width height gx gy k : Nat) (grid : List (List Int))
    (hk : k < chunks.length)
    (hcov : covers (chunks.getD k default) gx gy)
    (hanother : ∃ j, j < k ∧ covers (chunks.getD j default) gx gy)
    (hlast : ∀ j, k < j → j < chunks.length →
      ¬ covers (chunks.getD j default) gx gy)
    (hgx : gx < width) (hgy : gy < height)
    (hrun : stitch_chunks f chunks width height = some grid) :
    getCell grid gy gx =
      some (f (((chunks.getD k default).grid.getD
          ((gy : Int) - (chunks.getD k default).py).toNat []).getD
          ((gx : Int) - (chunks.getD k default).px).toNat 0)) := by
  unfold stitch_chunks at hrun
  cases hrunT : stitch_chunksT (fun (s : Unit) g => (s, f g)) chunks width
      height () with
  | none => rw [hrunT] at hrun; cases hrun
  | some pair =>
    rw [hrunT] at hrun
    have hgrid : pair.1 = grid := by
      simp only [Option.map_some'] at hrun
      exact Option.some.inj hrun
    unfold stitch_chunksT at hrunT
    have hgetd : chunks.getD k default = chunks[k] := by
      rw [List.getD_eq_getElem?_getD, List.getElem?_eq_getElem hk]
      rfl
    have hdec : chunks = chunks.take k ++ chunks[k] :: chunks.drop (k + 1) := by
      conv_lhs => rw [← List.take_append_drop k chunks]
      rw [List.drop_eq_getElem_cons hk]
    rw [hdec, List.foldlM_append] at hrunT
    cases hA : List.foldlM
        (processChunk (fun (s : Unit) g => (s, f g)) width height)
        (List.replicate height (List.replicate width 0), ())
        (chunks.take k) with
    | none => rw [hA] at hrunT; cases hrunT
    | some accA =>
      rw [hA] at hrunT
      simp only [Option.bind_eq_bind, Option.some_bind] at hrunT
      rw [List.foldlM_cons] at hrunT
      cases hB : processChunk (fun (s : Unit) g => (s, f g)) width height
          accA chunks[k] with
      | none => rw [hB] at hrunT; cases hrunT
      | some accB =>
        rw [hB] at hrunT
        simp only [Option.bind_eq_bind, Option.some_bind] at hrunT
        have hsA := foldChunks_shape _ width height (chunks.take k) _ accA hA
          (gridShape_replicate width height)
        rw [hgetd] at hcov
        have hcell := processChunk_cover f width height accA accB chunks[k]
          gx gy hB hcov hgx hgy hsA
        have hpost : ∀ d ∈ chunks.drop (k + 1), ¬ covers d gx gy := by
          intro d hd
          obtain ⟨i, hi, hEq⟩ := List.getElem_of_mem hd
          rw [List.getElem_drop] at hEq
          have hlen : k + 1 + i < chunks.length := by
            have := List.length_drop (k + 1) chunks
            omega
          have := hlast (k + 1 + i) (by omega) hlen
          rw [List.getD_eq_getElem?_getD, List.getElem?_eq_getElem hlen]
            at this
          rw [← hEq]
          exact this
        rw [hgetd, ← hgrid,
          foldChunks_no_cover _ width height (chunks.drop (k + 1)) accB pair
            gx gy hrunT hpost]
        exact hcell

/-- C3 (witness): two overlapping 2×2 chunks; the absolute cell (1, 0) is
covered by both and receives the later chunk's value. -/
theorem stitch_chunks_last_chunk_wins_witness :
    getCell [[1, 5, 6, 0], [3, 7, 8, 0]] 0 1 =
      some (((([⟨0, 0, 2, 2, [[1, 2], [3, 4]], []⟩,
          ⟨1, 0, 2, 2, [[5, 6], [7, 8]], []⟩] : List ChunkT).getD 1
          default).grid.getD
          ((0 : Int) - (([⟨0, 0, 2, 2, [[1, 2], [3, 4]], []⟩,
            ⟨1, 0, 2, 2, [[5, 6], [7, 8]], []⟩] : List ChunkT).getD 1
            default).py).toNat []).getD
          ((1 : Int) - (([⟨0, 0, 2, 2, [[1, 2], [3, 4]], []⟩,
            ⟨1, 0, 2, 2, [[5, 6], [7, 8]], []⟩] : List ChunkT).getD 1
            default).px).toNat 0) :=
  stitch_chunks_last_chunk_wins (fun g => g)
    [⟨0, 0, 2, 2, [[1, 2], [3, 4]], []⟩, ⟨1, 0, 2, 2, [[5, 6], [7, 8]], []⟩]
    4 2 1 0 1 [[1, 5, 6, 0], [3, 7, 8, 0]]
    (by decide) (by decide) ⟨0, by decide, by decide⟩
    (by
      intro j hj1 hj2 hcov
      simp only [List.length_cons, List.length_nil] at hj2
      omega)
    (by decide) (by decide) (by decide)

theorem stepCell_log (f : Int → Int) (w h : Nat) (c : ChunkT)
    (acc acc' : List (List Int) × List Int) (p : Nat × Nat)
    (hstep : stepCell (fun (s : List Int) g => (s ++ [g], f g)) w h c acc p =
      some acc') :
    acc'.2 = acc.2 ++ [(c.grid.getD p.1 []).getD p.2 0] := by
  unfold stepCell at hstep
  cases hacc : (c.grid.get? p.1).bind (fun row => row.get? p.2) with
  | none => rw [hacc] at hstep; cases hstep
  | some raw =>
    rw [hacc] at hstep
    simp only [] at hstep
    have hrawD : (c.grid.getD p.1 []).getD p.2 0 = raw := by
      cases hg1 : c.grid.get? p.1 with
      | none => rw [hg1] at hacc; cases hacc
      | some row =>
        rw [hg1] at hacc
        simp only [Option.some_bind] at hacc
        rw [getD_of_get? c.grid p.1 row [] hg1, getD_of_get? row p.2 raw 0 hacc]
    rw [hrawD]
    by_cases hcond : 0 ≤ c.px + (p.2 : Int) ∧ c.px + (p.2 : Int) < (w : Int) ∧
        0 ≤ c.py + (p.1 : Int) ∧ c.py + (p.1 : Int) < (h : Int)
    · rw [if_pos hcond] at hstep
      cases hstep
      rfl
    · rw [if_neg hcond] at hstep
      cases hstep
      rfl

theorem foldCells_log (f : Int → Int) (w h : Nat) (c : ChunkT)
    (pairs : List (Nat × Nat)) (acc acc' : List (List Int) × List Int)
    (hfold : pairs.foldlM
      (stepCell (fun (s : List Int) g => (s ++ [g], f g)) w h c) acc =
      some acc') :
    acc'.2 = acc.2 ++
      pairs.map (fun p => (c.grid.getD p.1 []).getD p.2 0) := by
  induction pairs generalizing acc with
  | nil =>
    cases hfold
    simp
  | cons p ps ih =>
    rw [List.foldlM_cons] at hfold
    cases hstep : stepCell (fun (s : List Int) g => (s ++ [g], f g)) w h c
        acc p with
    | none => rw [hstep] at hfold; cases hfold
    | some acc1 =>
      rw [hstep] at hfold
      rw [ih acc1 hfold, stepCell_log f w h c acc acc1 p hstep,
        List.map_cons, List.append_assoc]
      rfl

theorem processChunk_log (f : Int → Int) (w h : Nat)
    (acc acc' : List (List Int) × List Int) (c : ChunkT)
    (hp : processChunk (fun (s : List Int) g => (s ++ [g], f g)) w h acc c =
      some acc') :
    acc'.2 = acc.2 ++
      (if c.px < 0 ∨ c.py < 0 then []
       else (cellList c.ch c.cw).map
         (fun p => (c.grid.getD p.1 []).getD p.2 0)) := by
  unfold processChunk at hp
  by_cases hneg : c.px < 0 ∨ c.py < 0
  · rw [if_pos hneg] at hp
    cases hp
    rw [if_pos hneg, List.append_nil]
  · rw [if_neg hneg] at hp
    rw [if_neg hneg]
    exact foldCells_log f w h c _ acc acc' hp

theorem foldChunks_log (f : Int → Int) (w h : Nat) (chunks : List ChunkT)
    (acc acc' : List (List Int) × List Int)
    (hfold : chunks.foldlM
      (processChunk (fun (s : List Int) g => (s ++ [g], f g)) w h) acc =
      some acc') :
    acc'.2 = acc.2 ++ expectedCalls chunks := by
  induction chunks generalizing acc with
  | nil =>
    cases hfold
    simp [expectedCalls]
  | cons c rest ih =>
    rw [List.foldlM_cons] at hfold
    cases hc : processChunk (fun (s : List Int) g => (s ++ [g], f g)) w h
        acc c with
    | none => rw [hc] at hfold; cases hfold
    | some acc1 =>
      rw [hc] at hfold
      rw [ih acc1 hfold, processChunk_log f w h acc acc1 c hc]
      by_cases hneg : c.px < 0 ∨ c.py < 0
      · have hpred : (decide (0 ≤ c.px) && decide (0 ≤ c.py)) = false := by
          rcases hneg with h | h
          · simp [show ¬(0 ≤ c.px) by omega]
          · simp [show ¬(0 ≤ c.py) by omega]
        rw [if_pos hneg, List.append_nil]
        unfold expectedCalls
        rw [List.filter_cons_of_neg (by simp [hpred])]
      · have hpred : (decide (0 ≤ c.px) && decide (0 ≤ c.py)) = true := by
          simp [show 0 ≤ c.px by omega, show 0 ≤ c.py by omega]
        rw [if_neg hneg]
        unfold expectedCalls
        rw [List.filter_cons_of_pos (by simp [hpred]), List.flatMap_cons,
          List.append_assoc]

/-- C10: during stitch_chunks, the host registration callback is invoked
exactly once per local cell of every non-negatively-positioned chunk, in
row-major order, regardless of whether the absolute cell falls inside
the width×height output grid: the call log equals the row-major
enumeration of all those cells, so for out-of-bounds cells only the grid
write is skipped while the registration side effect still occurs. -/
theorem stitch_chunks_registers_every_cell (f : Int → Int)
    (chunks : List ChunkT) (width height : Nat) (grid : List (List Int))
    (log : List Int)
    (hrun : stitch_chunksT (fun (s : List Int) g => (s ++ [g], f g)) chunks
      width height [] = some (grid, log)) :
    log = expectedCalls chunks := by
  unfold stitch_chunksT at hrun
  have := foldChunks_log f width height chunks
    (List.replicate height (List.replicate width 0), []) (grid, log) hrun
  simpa using this

/-- C10 (witness): a 2×1 chunk on a 1×1 map: the cell at absolute (1, 0)
is out of bounds yet still registered, so the log is [5, 7]. -/
theorem stitch_chunks_registers_every_cell_witness :
    ([5, 7] : List Int) = expectedCalls [⟨0, 0, 2, 1, [[5, 7]], []⟩] :=
  stitch_chunks_registers_every_cell (fun g => g + 100)
    [⟨0, 0, 2, 1, [[5, 7]], []⟩] 1 1 [[105]] [5, 7] (by decide)

theorem sq_sum_pos (p : Point) (h : p ≠ ⟨0, 0⟩) : 0 < p.x ^ 2 + p.y ^ 2 := by
  rcases p with ⟨px, py⟩
  by_cases hx : px = 0
  · have hy : py ≠ 0 := fun hy => h (by rw [hx, hy])
    have h2 : 0 < py ^ 2 := sq_pos_of_ne_zero hy
    nlinarith [sq_nonneg px]
  · have h2 : 0 < px ^ 2 := sq_pos_of_ne_zero hx
    nlinarith [sq_nonneg py]

theorem axesM_some (sq : ℚ → ℚ) (hsq : ∀ q : ℚ, 0 < q → 0 < sq q)
    (l : List Point) (hnz : ∀ nrm ∈ l, nrm ≠ (⟨0, 0⟩ : Point)) :
    l.mapM (fun nrm =>
      let len := sq (nrm.x ^ 2 + nrm.y ^ 2)
      if len = 0 then none else some (⟨nrm.x / len, nrm.y / len⟩ : Point)) =
    some (l.map (fun nrm =>
      (⟨nrm.x / sq (nrm.x ^ 2 + nrm.y ^ 2),
        nrm.y / sq (nrm.x ^ 2 + nrm.y ^ 2)⟩ : Point))) := by
  induction l with
  | nil => rfl
  | cons nrm rest ih =>
    have hpos : 0 < sq (nrm.x ^ 2 + nrm.y ^ 2) :=
      hsq _ (sq_sum_pos nrm (hnz nrm (List.mem_cons_self nrm rest)))
    rw [List.mapM_cons]
    simp only [if_neg (by exact ne_of_gt hpos), Option.bind_eq_bind,
      Option.some_bind, ih (fun q hq => hnz q (List.mem_cons_of_mem nrm hq)),
      List.map_cons]
    rfl

theorem get_axes_some (sq : ℚ → ℚ) (hsq : ∀ q : ℚ, 0 < q → 0 < sq q)
    (p : List Point) (hnz : ∀ nrm ∈ edgeNormals p, nrm ≠ (⟨0, 0⟩ : Point)) :
    get_axes sq p = some ((edgeNormals p).map (fun nrm =>
      (⟨nrm.x / sq (nrm.x ^ 2 + nrm.y ^ 2),
        nrm.y / sq (nrm.x ^ 2 + nrm.y ^ 2)⟩ : Point))) := by
  unfold get_axes
  exact axesM_some sq hsq (edgeNormals p) hnz

theorem min_div_pos (a b c : ℚ) (hc : 0 < c) :
    min (a / c) (b / c) = min a b / c := by
  rcases le_total a b with h | h
  · rw [min_eq_left h, min_eq_left (by gcongr)]
  · rw [min_eq_right h, min_eq_right (by gcongr)]

theorem max_div_pos (a b c : ℚ) (hc : 0 < c) :
    max (a / c) (b / c) = max a b / c := by
  rcases le_total a b with h | h
  · rw [max_eq_right h, max_eq_right (by gcongr)]
  · rw [max_eq_left h, max_eq_left (by gcongr)]

theorem foldl_min_div (len : ℚ) (hlen : 0 < len) (ds : List ℚ) :
    ∀ d : ℚ, (ds.map (· / len)).foldl min (d / len) = ds.foldl min d / len := by
  induction ds with
  | nil => intro d; rfl
  | cons e es ih =>
    intro d
    rw [List.map_cons, List.foldl_cons, List.foldl_cons,
      min_div_pos d e len hlen, ih (min d e)]

theorem foldl_max_div (len : ℚ) (hlen : 0 < len) (ds : List ℚ) :
    ∀ d : ℚ, (ds.map (· / len)).foldl max (d / len) = ds.foldl max d / len := by
  induction ds with
  | nil => intro d; rfl
  | cons e es ih =>
    intro d
    rw [List.map_cons, List.foldl_cons, List.foldl_cons,
      max_div_pos d e len hlen, ih (max d e)]

theorem project_div (poly : List Point) (axis : Point) (len : ℚ)
    (hlen : 0 < len) :
    project poly ⟨axis.x / len, axis.y / len⟩ =
      (project poly axis).map (fun m => (m.1 / len, m.2 / len)) := by
  unfold project
  have hmap : poly.map (fun p => p.x * (axis.x / len) + p.y * (axis.y / len)) =
      (poly.map (fun p => p.x * axis.x + p.y * axis.y)).map (· / len) := by
    rw [List.map_map]
    apply List.map_congr_left
    intro p _
    show p.x * (axis.x / len) + p.y * (axis.y / len) =
      (p.x * axis.x + p.y * axis.y) / len
    field_simp
  rw [hmap]
  cases h : poly.map (fun p => p.x * axis.x + p.y * axis.y) with
  | nil => rfl
  | cons d ds =>
    rw [List.map_cons]
    show some ((ds.map (· / len)).foldl min (d / len),
        (ds.map (· / len)).foldl max (d / len)) = _
    rw [foldl_min_div len hlen ds d, foldl_max_div len hlen ds d]
    rfl

theorem separatesB_scale (poly1 poly2 : List Point) (nrm : Point) (len : ℚ)
    (hlen : 0 < len) :
    separatesB poly1 poly2 ⟨nrm.x / len, nrm.y / len⟩ =
      separatesB poly1 poly2 nrm := by
  unfold separatesB
  rw [project_div poly1 nrm len hlen, project_div poly2 nrm len hlen]
  cases h1 : project poly1 nrm with
  | none => rfl
  | some m1 =>
    cases h2 : project poly2 nrm with
    | none => rfl
    | some m2 =>
      show decide (m1.2 / len < m2.1 / len ∨ m2.2 / len < m1.1 / len) =
        decide (m1.2 < m2.1 ∨ m2.2 < m1.1)
      rw [decide_eq_decide]
      rw [div_lt_div_iff_of_pos_right hlen, div_lt_div_iff_of_pos_right hlen]

theorem project_some_of_ne_nil (poly : List Point) (ax : Point)
    (h : poly ≠ []) : ∃ m, project poly ax = some m := by
  cases poly with
  | nil => exact absurd rfl h
  | cons p ps => exact ⟨_, rfl⟩

theorem satLoop_eq (poly1 poly2 : List Point) (h1 : poly1 ≠ [])
    (h2 : poly2 ≠ []) (axes : List Point) :
    satLoop poly1 poly2 axes = some (!(axes.any (separatesB poly1 poly2))) := by
  induction axes with
  | nil => rfl
  | cons ax rest ih =>
    obtain ⟨m1, hm1⟩ := project_some_of_ne_nil poly1 ax h1
    obtain ⟨m2, hm2⟩ := project_some_of_ne_nil poly2 ax h2
    unfold satLoop
    rw [hm1, hm2]
    simp only [Option.some_bind]
    have hsepeq : separatesB poly1 poly2 ax =
        decide (m1.2 < m2.1 ∨ m2.2 < m1.1) := by
      unfold separatesB
      rw [hm1, hm2]
    by_cases hsep : m1.2 < m2.1 ∨ m2.2 < m1.1
    · rw [if_pos hsep, List.any_cons, hsepeq, decide_eq_true_eq.mpr hsep]
      rfl
    · rw [if_neg hsep, ih, List.any_cons, hsepeq,
        decide_eq_false_iff_not.mpr hsep]
      rfl

theorem any_congr_mem {α : Type} (l : List α) (p q : α → Bool)
    (h : ∀ a ∈ l, p a = q a) : l.any p = l.any q := by
  induction l with
  | nil => rfl
  | cons a as ih =>
    rw [List.any_cons, List.any_cons, h a (List.mem_cons_self a as),
      ih (fun b hb => h b (List.mem_cons_of_mem a hb))]

/-- C8 (counterexample): a clockwise square with a repeated vertex passes
the code's convexity test, and a distant convex square admits a
separating edge-normal axis, yet intersects_with_polygon fails with
ZeroDivisionError while normalizing the zero-length edge instead of
returning false — falsifying the claim that on convex inputs it returns
a boolean that is false iff a separating axis exists.  (On the executed
path only the square root of 0 is taken, so `id` faithfully stands in
for Python's `** 0.5`.) -/
theorem intersects_with_polygon_zero_edge_counterexample :
    is_convex [⟨0, 0⟩, ⟨0, 0⟩, ⟨0, 1⟩, ⟨1, 1⟩, ⟨1, 0⟩] = true ∧
    is_convex [⟨10, 0⟩, ⟨11, 0⟩, ⟨11, 1⟩, ⟨10, 1⟩] = true ∧
    intersects_with_polygon id [⟨0, 0⟩, ⟨0, 0⟩, ⟨0, 1⟩, ⟨1, 1⟩, ⟨1, 0⟩]
      [⟨10, 0⟩, ⟨11, 0⟩, ⟨11, 1⟩, ⟨10, 1⟩] = none ∧
    (edgeNormals [⟨0, 0⟩, ⟨0, 0⟩, ⟨0, 1⟩, ⟨1, 1⟩, ⟨1, 0⟩] ++
        edgeNormals [⟨10, 0⟩, ⟨11, 0⟩, ⟨11, 1⟩, ⟨10, 1⟩]).any
      (separatesB [⟨0, 0⟩, ⟨0, 0⟩, ⟨0, 1⟩, ⟨1, 1⟩, ⟨1, 0⟩]
        [⟨10, 0⟩, ⟨11, 0⟩, ⟨11, 1⟩, ⟨10, 1⟩]) = true := by
  refine ⟨?_, ?_, ?_, ?_⟩
  · norm_num [is_convex, crossP, List.range_succ]
  · norm_num [is_convex, crossP, List.range_succ]
  · norm_num [intersects_with_polygon, is_convex, crossP, get_axes,
      edgeNormals, List.range_succ, List.mapM, List.mapM.loop]
  · norm_num [edgeNormals, separatesB, project, List.range_succ]

/-- C8 (amended): with the square-root primitive positive on positive
inputs, intersects_with_polygon fails whenever either transformed vertex
list is non-convex per the code's test (it never returns a boolean
then); and when both are convex, nonempty, and free of zero-length edges
it returns a boolean that is false iff some edge-normal axis of either
polygon separates the two projected intervals. -/
theorem intersects_with_polygon_sat (sq : ℚ → ℚ) (poly1 poly2 : List Point)
    (hsq : ∀ q : ℚ, 0 < q → 0 < sq q) :
    ((is_convex poly1 = false ∨ is_convex poly2 = false) →
      intersects_with_polygon sq poly1 poly2 = none) ∧
    (is_convex poly1 = true → is_convex poly2 = true →
     poly1 ≠ [] → poly2 ≠ [] →
     (∀ nrm ∈ edgeNormals poly1, nrm ≠ (⟨0, 0⟩ : Point)) →
     (∀ nrm ∈ edgeNormals poly2, nrm ≠ (⟨0, 0⟩ : Point)) →
     intersects_with_polygon sq poly1 poly2 =
       some (!((edgeNormals poly1 ++ edgeNormals poly2).any
         (separatesB poly1 poly2)))) := by
  constructor
  · intro h
    unfold intersects_with_polygon
    rcases h with h | h
    · rw [if_pos (by rw [h]; rfl)]
    · rw [if_pos (by rw [h]; simp)]
  · intro hc1 hc2 hne1 hne2 hnz1 hnz2
    unfold intersects_with_polygon
    rw [if_neg (by rw [hc1, hc2]; simp)]
    rw [get_axes_some sq hsq poly1 hnz1, get_axes_some sq hsq poly2 hnz2]
    simp only [Option.some_bind]
    rw [satLoop_eq poly1 poly2 hne1 hne2]
    have hany : ((edgeNormals poly1).map (fun nrm =>
          (⟨nrm.x / sq (nrm.x ^ 2 + nrm.y ^ 2),
            nrm.y / sq (nrm.x ^ 2 + nrm.y ^ 2)⟩ : Point)) ++
        (edgeNormals poly2).map (fun nrm =>
          (⟨nrm.x / sq (nrm.x ^ 2 + nrm.y ^ 2),
            nrm.y / sq (nrm.x ^ 2 + nrm.y ^ 2)⟩ : Point))).any
          (separatesB poly1 poly2) =
        (edgeNormals poly1 ++ edgeNormals poly2).any
          (separatesB poly1 poly2) := by
      rw [List.any_append, List.any_append, List.any_map, List.any_map]
      have e1 := any_congr_mem (edgeNormals poly1)
        (separatesB poly1 poly2 ∘ fun nrm =>
          (⟨nrm.x / sq (nrm.x ^ 2 + nrm.y ^ 2),
            nrm.y / sq (nrm.x ^ 2 + nrm.y ^ 2)⟩ : Point))
        (separatesB poly1 poly2)
        (fun nrm hmem => separatesB_scale poly1 poly2 nrm _
          (hsq _ (sq_sum_pos nrm (hnz1 nrm hmem))))
      have e2 := any_congr_mem (edgeNormals poly2)
        (separatesB poly1 poly2 ∘ fun nrm =>
          (⟨nrm.x / sq (nrm.x ^ 2 + nrm.y ^ 2),
            nrm.y / sq (nrm.x ^ 2 + nrm.y ^ 2)⟩ : Point))
        (separatesB poly1 poly2)
        (fun nrm hmem => separatesB_scale poly1 poly2 nrm _
          (hsq _ (sq_sum_pos nrm (hnz2 nrm hmem))))
      rw [e1, e2]
    rw [hany]

/-- C8 (witness): two overlapping axis-aligned squares are convex with
nonzero edges; the theorem applies and no axis separates them, so the
call returns true. -/
theorem intersects_with_polygon_sat_witness :
    intersects_with_polygon id [⟨0, 0⟩, ⟨4, 0⟩, ⟨4, 4⟩, ⟨0, 4⟩]
        [⟨2, 2⟩, ⟨6, 2⟩, ⟨6, 6⟩, ⟨2, 6⟩] =
      some (!((edgeNormals [⟨0, 0⟩, ⟨4, 0⟩, ⟨4, 4⟩, ⟨0, 4⟩] ++
        edgeNormals [⟨2, 2⟩, ⟨6, 2⟩, ⟨6, 6⟩, ⟨2, 6⟩]).any
          (separatesB [⟨0, 0⟩, ⟨4, 0⟩, ⟨4, 4⟩, ⟨0, 4⟩]
            [⟨2, 2⟩, ⟨6, 2⟩, ⟨6, 6⟩, ⟨2, 6⟩]))) :=
  (intersects_with_polygon_sat id [⟨0, 0⟩, ⟨4, 0⟩, ⟨4, 4⟩, ⟨0, 4⟩]
      [⟨2, 2⟩, ⟨6, 2⟩, ⟨6, 6⟩, ⟨2, 6⟩] (fun _ hq => hq)).2
    (by norm_num [is_convex, crossP, List.range_succ])
    (by norm_num [is_convex, crossP, List.range_succ])
    (by simp) (by simp)
    (by norm_num [edgeNormals, List.range_succ, Point.mk.injEq])
    (by norm_num [edgeNormals, List.range_succ, Point.mk.injEq])
